import Mathlib

/-!
# soupnazi: the per-user license store (`licenses.go`)

A shallow embedding of `LicenseFile`, `ParseLicenses` and `AddLicense`, together with the
parts of the Go standard library they call (`path.Clean`, `path.Join`, `path.Dir`,
`strings.Trim`, `bufio.Reader.ReadString`, and the `os` calls on files).

Conventions.

* A Go `string` is a sequence of bytes; it is embedded as a `List Char`, one `Char` per byte.
  Every function below only compares bytes with the ASCII bytes `'\n'`, `'/'` and `'.'`
  or with each other.
* Process-wide state read by the code is passed explicitly: the environment is a function
  `env : GoString → GoString` (`os.Getenv`, the empty string for an unset variable), the home
  directory is the string `homedir.Dir()` returns (its error is discarded by the code), the
  platform is `runtime.GOOS`, and the file system is a value of type `FS`.
* Calls to the logger (`stream.Infof`, `stream.Debugf`, `log.Printf`) have no effect on what
  the functions return or write and are left out.
-/

namespace Soupnazi

/-- A Go string, as its sequence of bytes. -/
abbrev GoString := List Char

/-! ## Package `path` -/

/-- The backward scan of the `..` case of `path.Clean`, after the first `out.w--`:
`for out.w > dotdot && out.index(out.w) != '/' { out.w-- }`, as a function of `out.w`. -/
def cleanBack (buf : GoString) (dotdot : Nat) : Nat → Nat
  | 0 => 0
  | w + 1 =>
    if w + 1 > dotdot ∧ buf.getD (w + 1) '/' ≠ '/' then cleanBack buf dotdot w else w + 1

/-- The main loop `for r < n` of `path.Clean`. The arguments are the bytes `path[r:]` still to
be processed, the bytes `out` written so far (`out.w` is `out.length`) and `dotdot`; the result
is the final `out` and `dotdot`. The flag `copying` is true inside the inner loop
`for ; r < n && path[r] != '/'; r++` that copies a path element; when that loop stops at a
`'/'` the next iteration of the main loop would skip it, which is done here at once. -/
def cleanLoop (rooted : Bool) : Bool → GoString → GoString → Nat → GoString × Nat
  | _, [], out, dotdot => (out, dotdot)
  | true, c :: r, out, dotdot =>
    if c = '/' then cleanLoop rooted false r out dotdot
    else cleanLoop rooted true r (out ++ [c]) dotdot
  | false, c :: r, out, dotdot =>
    if c = '/' then
      -- empty path element
      cleanLoop rooted false r out dotdot
    else if c = '.' ∧ (r = [] ∨ r.head? = some '/') then
      -- . element
      cleanLoop rooted false r out dotdot
    else if c = '.' ∧ r.head? = some '.' ∧ (r.tail = [] ∨ r.tail.head? = some '/') then
      -- .. element: remove to last /; `r += 2` (here `r` starts with the second dot)
      match r with
      | [] => (out, dotdot)
      | _ :: r2 =>
        if out.length > dotdot then
          -- can backtrack
          cleanLoop rooted false r2 (out.take (cleanBack out dotdot (out.length - 1))) dotdot
        else if !rooted then
          -- cannot backtrack, but not rooted, so append .. element
          let out1 := (if out.length > 0 then out ++ ['/'] else out) ++ ['.', '.']
          cleanLoop rooted false r2 out1 out1.length
        else cleanLoop rooted false r2 out dotdot
    else
      -- real path element: add slash if needed, then copy the element
      let out1 :=
        if (rooted && out.length != 1) || (!rooted && out.length != 0) then out ++ ['/'] else out
      cleanLoop rooted true r (out1 ++ [c]) dotdot

/-- Go `path.Clean`: the shortest path name equivalent to `path` by purely lexical processing. -/
def Clean (path : GoString) : GoString :=
  if path = [] then ['.']
  else
    let rooted : Bool := path.head? = some '/'
    let out :=
      if rooted then (cleanLoop true false path.tail ['/'] 1).1
      else (cleanLoop false false path [] 0).1
    -- Turn empty string into "."
    if out.length = 0 then ['.'] else out

/-- Go `strings.Join(elems, "/")`. -/
def joinSlash : List GoString → GoString
  | [] => []
  | [e] => e
  | e :: es => e ++ '/' :: joinSlash es

/-- Go `path.Join`: the elements from the first non-empty one on are joined with slashes and the
result is cleaned; if every element is empty the result is the empty string. -/
def Join (elem : List GoString) : GoString :=
  match elem.dropWhile (fun e => e = []) with
  | [] => []
  | es => Clean (joinSlash es)

/-- Go `path.Split`: `dir` is the path up to and including its last slash. -/
def Split (path : GoString) : GoString × GoString :=
  (path.rdropWhile (fun c => c ≠ '/'), (path.reverse.takeWhile (fun c => c ≠ '/')).reverse)

/-- Go `path.Dir`. -/
def Dir (path : GoString) : GoString :=
  Clean (Split path).1

/-! ## `LicenseFile` -/

/-- The name of the override variable: `var envvar = "SOUPNAZI_CONFIG_FILE"`. -/
def envvar : GoString := "SOUPNAZI_CONFIG_FILE".toList

/-- The function `LicenseFile()`, as a function of the environment, of the home directory and of
`runtime.GOOS`. -/
def LicenseFile (env : GoString → GoString) (home platform : GoString) : GoString :=
  if env envvar ≠ [] then env envvar
  else
    let datadir : GoString :=
      if platform = "windows".toList then
        let datadir := env "APPDATA".toList
        if datadir = [] then Join [home, ".config".toList] else datadir
      else if platform = "linux".toList then
        let datadir := env "XDG_CONFIG_HOME".toList
        if datadir = [] then Join [home, ".config".toList] else datadir
      else if platform = "darwin".toList then
        Join [home, "Library".toList, "Preferences".toList]
      else []
    Join [datadir, "soupnazi".toList, "licenses".toList]

/-! ## Errors, files and readers -/

/-- The error numbers of the operating system that the model produces. -/
inductive Errno
  | ENOENT
  | EISDIR
  | ENOTDIR
  | EACCES
  | ENOSPC
  deriving DecidableEq

/-- The text of an error number (`syscall.Errno.Error`). -/
def Errno.Error : Errno → GoString
  | .ENOENT => "no such file or directory".toList
  | .EISDIR => "is a directory".toList
  | .ENOTDIR => "not a directory".toList
  | .EACCES => "permission denied".toList
  | .ENOSPC => "no space left on device".toList

/-- A non-nil Go `error`: `io.EOF`, an `*os.PathError`, or the result of `fmt.Errorf`. -/
inductive GoError
  | EOF
  | pathError (op path : GoString) (err : Errno)
  | errorf (text : GoString)
  deriving DecidableEq

/-- The method `Error()`. -/
def GoError.Error : GoError → GoString
  | .EOF => "EOF".toList
  | .pathError op path err => op ++ " ".toList ++ path ++ ": ".toList ++ err.Error
  | .errorf text => text

/-- Go `os.IsNotExist`, on an `error` that may be nil. -/
def IsNotExist : Option GoError → Bool
  | some (.pathError _ _ .ENOENT) => true
  | _ => false

/-- The file system: the content of every regular file and the set of directories, by path
name; the names that the process may not open for writing; and the number of bytes by which
the files can still grow. Path names are compared as strings, and the directory above a name
is `path.Dir` of it. -/
structure FS where
  files : GoString → Option GoString
  dirs : GoString → Bool
  readonly : GoString → Bool
  space : Nat

/-- The file system in which the regular file `name` has the content `content`. -/
def FS.withFile (fs : FS) (name content : GoString) : FS :=
  { fs with files := fun p => if p = name then some content else fs.files p }

/-- The file system in which `path` is a directory. -/
def FS.withDir (fs : FS) (path : GoString) : FS :=
  { fs with dirs := fun p => if p = path then true else fs.dirs p }

/-- The values of `path.Dir` applied repeatedly to a name, until the root or the current
directory is reached; the first argument bounds their number. -/
def ancestorsAux : Nat → GoString → List GoString
  | 0, _ => []
  | n + 1, name => if Dir name = name then [] else Dir name :: ancestorsAux n (Dir name)

/-- The directories above `name`, the nearest one first. -/
def ancestors (name : GoString) : List GoString :=
  ancestorsAux (name.length + 1) name

/-- The error number of a call on a name at which nothing exists: `ENOTDIR` when a regular
file stands where a directory above the name is expected, `ENOENT` otherwise. -/
def lookupErrno (fs : FS) (name : GoString) : Errno :=
  if (ancestors name).any (fun a => (fs.files a).isSome) then .ENOTDIR else .ENOENT

/-- Go `os.Stat`, keeping only its error. -/
def osStat (fs : FS) (name : GoString) : Option GoError :=
  if (fs.files name).isSome || fs.dirs name then none
  else some (.pathError "stat".toList name (lookupErrno fs name))

/-- Go `os.MkdirAll`: it does nothing if `path` is a directory, fails if `path` or a name
above it is a regular file, and otherwise creates the directory and every missing directory
above it. -/
def osMkdirAll (fs : FS) (path : GoString) : Option GoError × FS :=
  if fs.dirs path then (none, fs)
  else if (fs.files path).isSome || (ancestors path).any (fun a => (fs.files a).isSome) then
    (some (.pathError "mkdir".toList path .ENOTDIR), fs)
  else
    (none, { fs with dirs := fun p => p = path || (ancestors path).contains p || fs.dirs p })

/-- Go `os.Create`, that is `OpenFile(name, O_RDWR|O_CREATE|O_TRUNC, 0666)`: it fails on a
name that ends with a slash or is a directory, when the directory above the name does not
exist, and on an existing file that may not be written; otherwise the file exists afterwards
and is empty. -/
def osCreate (fs : FS) (name : GoString) : Option GoError × FS :=
  if name.getLast? = some '/' || fs.dirs name then
    (some (.pathError "open".toList name .EISDIR), fs)
  else if !fs.dirs (Dir name) then
    (some (.pathError "open".toList name
      (if (fs.files (Dir name)).isSome then .ENOTDIR else lookupErrno fs name)), fs)
  else if (fs.files name).isSome && fs.readonly name then
    (some (.pathError "open".toList name .EACCES), fs)
  else
    (none, { fs.withFile name [] with space := fs.space + ((fs.files name).getD []).length })

/-- A `bufio.Reader` on an open file: the bytes not yet delivered, and the error the file
returns once they are exhausted (`io.EOF` at the end of a regular file). -/
structure Reader where
  rest : GoString
  fin : GoError

/-- Go `os.Open` followed by `bufio.NewReader`. A directory can be opened, but reading from it
fails. -/
def osOpen (fs : FS) (name : GoString) : Except GoError Reader :=
  match fs.files name with
  | some content => .ok { rest := content, fin := .EOF }
  | none =>
    if fs.dirs name then .ok { rest := [], fin := .pathError "read".toList name .EISDIR }
    else .error (.pathError "open".toList name (lookupErrno fs name))

/-- Go `(*bufio.Reader).ReadString`: reads until the first occurrence of `delim`, returning the
bytes up to and including the delimiter; if the input ends before a delimiter is found, it
returns the bytes read before the error and the error itself. -/
def Reader.ReadString (rd : Reader) (delim : Char) : (GoString × Option GoError) × Reader :=
  if delim ∈ rd.rest then
    ((rd.rest.takeWhile (fun c => c ≠ delim) ++ [delim], none),
      { rd with rest := (rd.rest.dropWhile (fun c => c ≠ delim)).tail })
  else ((rd.rest, some rd.fin), { rd with rest := [] })

/-- Go `strings.Trim`: `s` with all leading and trailing bytes contained in `cutset` removed. -/
def Trim (s cutset : GoString) : GoString :=
  (s.dropWhile (fun c => c ∈ cutset)).rdropWhile (fun c => c ∈ cutset)

/-- An open file (`*os.File`): its name and the current offset. -/
structure File where
  name : GoString
  offset : Nat

/-- Go `os.OpenFile(name, os.O_RDWR, perm)`: the file must exist and the process must be
allowed to write it. -/
def osOpenFile (fs : FS) (name : GoString) : Except GoError File :=
  match fs.files name with
  | some _ =>
    if fs.readonly name then .error (.pathError "open".toList name .EACCES)
    else .ok { name := name, offset := 0 }
  | none =>
    .error (.pathError "open".toList name
      (if fs.dirs name then .EISDIR else lookupErrno fs name))

/-- Go `(*os.File).Seek(offset, whence)` for `whence = 0` (from the start) and `whence = 2`
(from the end). -/
def File.Seek (fs : FS) (f : File) (offset whence : Nat) : (Nat × Option GoError) × File :=
  let size := ((fs.files f.name).getD []).length
  let pos := if whence = 2 then size + offset else offset
  ((pos, none), { f with offset := pos })

/-- Go `(*os.File).Write`: the bytes are written at the current offset, after zero bytes if
the offset is past the end of the file. When the file cannot grow by as many bytes as the
write needs, the bytes that fit are written and the error `ENOSPC` is returned with their
number. -/
def File.Write (fs : FS) (f : File) (b : GoString) : (Nat × Option GoError) × FS × File :=
  let old := (fs.files f.name).getD []
  let base := old.take f.offset ++ List.replicate (f.offset - old.length) (Char.ofNat 0)
  let n := min b.length ((old.length - f.offset) + fs.space)
  let new := base ++ b.take n ++ old.drop (f.offset + n)
  ((n, if n < b.length then some (.pathError "write".toList f.name .ENOSPC) else none),
    { fs.withFile f.name new with space := fs.space - (new.length - old.length) },
    { f with offset := f.offset + n })

/-! ## `ParseLicenses` -/

/-- The closure `process` of `ParseLicenses`: one line of the reader, without its newline. -/
def process (rd : Reader) : (GoString × Option GoError) × Reader :=
  let ((line, err), rd) := rd.ReadString '\n'
  if err ≠ none then (([], err), rd)
  else ((Trim line ['\n'], none), rd)

/-- The loop `for err == nil { ... }` of `ParseLicenses` and the `return` that follows it.
`err` and `line` are the variables of the enclosing function: the loop body declares its own
`line, err :=`, so they keep the values they have when the loop is entered. The first argument
bounds the number of iterations; `none` means the bound was reached. -/
def parseLoop (err : Option GoError) (line : GoString) :
    Nat → Reader → List GoString → Option (List GoString × Option GoError)
  | 0, _, _ => none
  | fuel + 1, rd, ret =>
    if err = none then
      let ((line1, err1), rd) := process rd
      if err1 = some .EOF then some (ret, none)
      else if err1 ≠ none then some ([], err1)
      else parseLoop err line fuel rd (if line1 ≠ [] then ret ++ [line1] else ret)
    else some ([], some (.errorf ("License file corrupted, ended with ".toList ++ line)))

/-- The function `ParseLicenses(lfile, stream)`: the list and the error it returns. Each iteration of the
loop that does not return consumes at least one byte of the file, so the bound given to
`parseLoop` is never reached (`ParseLicenses_isSome`). -/
def ParseLicenses (fs : FS) (lfile : GoString) : Option (List GoString × Option GoError) :=
  let ret : List GoString := []
  let blank : List GoString := []
  match osOpen fs lfile with
  | .error err =>
    some (ret, some (.errorf ("Error trying to open license file ".toList ++ lfile ++
      ": ".toList ++ err.Error)))
  | .ok reader =>
    let ((line, err), reader) := process reader
    if err = some .EOF then some (ret, none)
    else if err ≠ none then some (blank, err)
    else
      let ret := if line ≠ [] then ret ++ [line] else ret
      parseLoop err line (reader.rest.length + 1) reader ret

/-! ## `AddLicense` -/

/-- Lines 148 to 176 of `AddLicense`: parse the file, return if the license is already there,
and otherwise append it. -/
def appendLicense (fs : FS) (lfile lic : GoString) : Option (Option GoError × FS) :=
  match ParseLicenses fs lfile with
  | none => none
  | some (lics, err) =>
    if err ≠ none then
      some (some (.errorf
        "License file at %!s(MISSING) is corrupted: %!v(MISSING)".toList), fs)
    else if lics.any (fun l => lic = l) then
      -- a duplicate of an existing entry
      some (none, fs)
    else
      match osOpenFile fs lfile with
      | .error err =>
        some (some (.errorf ("Error trying to open license file ".toList ++ lfile ++
          ": ".toList ++ err.Error)), fs)
      | .ok f =>
        let ((_, err), f) := f.Seek fs 0 2
        match err with
        | some err =>
          some (some (.errorf ("Error seeking end of license file ".toList ++ lfile ++
            ": ".toList ++ err.Error)), fs)
        | none =>
          let ((_, err), fs, _) := f.Write fs (lic ++ ['\n'])
          match err with
          | some err =>
            some (some (.errorf ("Error writing license to ".toList ++ lfile ++
              ": ".toList ++ err.Error)), fs)
          | none => some (none, fs)

/-- The function `AddLicense(lic, stream)`: the error it returns and the file system it leaves. `RawToken` is
the syntax check of the package (it returns nil for a string that is not a JWT); `none` is
returned only if `ParseLicenses` reaches its iteration bound, which does not happen. -/
def AddLicense {Token : Type} (RawToken : GoString → Option Token)
    (env : GoString → GoString) (home platform : GoString) (fs : FS) (lic : GoString) :
    Option (Option GoError × FS) :=
  match RawToken lic with
  | none => some (some (.errorf ("License ".toList ++ lic ++ " is not a valid JWT".toList)), fs)
  | some _ =>
    let lfile := LicenseFile env home platform
    if lfile = [] then some (some (.errorf "Unable to identify settings file".toList), fs)
    else
      -- If file doesn't exist, "touch" it
      let err := osStat fs lfile
      if IsNotExist err then
        let pdir := Dir lfile
        if pdir = [] then
          some (some (.errorf ("Could't determine parent directory of ".toList ++ lfile ++
            ": ".toList ++ (err.map GoError.Error).getD "<nil>".toList)), fs)
        else
          match osMkdirAll fs pdir with
          | (some err, fs) =>
            some (some (.errorf ("Could't create parent directory ".toList ++ pdir ++
              ": ".toList ++ err.Error)), fs)
          | (none, fs) =>
            match osCreate fs lfile with
            | (some err, fs) =>
              some (some (.errorf ("Error trying create new licenses file at ".toList ++
                lfile ++ ": ".toList ++ err.Error)), fs)
            | (none, fs) => appendLicense fs lfile lic
      else appendLicense fs lfile lic

/-! ## Definitions used in the proofs -/

/-- The bytes written so far by `path.Clean`, followed by the slash that the loop adds
before it copies a real path element. -/
def cleanSep (rooted : Bool) (out : GoString) : GoString :=
  if (rooted && out.length != 1) || (!rooted && out.length != 0) then out ++ ['/'] else out

/-- A real path element: not empty, without a slash, and neither `.` nor `..`. -/
def NormalElem (e : GoString) : Prop :=
  e ≠ [] ∧ '/' ∉ e ∧ e ≠ ['.'] ∧ e ≠ ['.', '.']

/-- The states `(out, dotdot)` that the loop of `path.Clean` can reach at the end of a path
element: the root or nothing, then `..` elements appended while nothing can be removed, then
real path elements. -/
inductive Canon (rooted : Bool) : GoString → Nat → Prop
  | root : rooted = true → Canon rooted ['/'] 1
  | empty : rooted = false → Canon rooted [] 0
  | dots (out : GoString) : rooted = false → Canon rooted out out.length →
      Canon rooted ((if out.length > 0 then out ++ ['/'] else out) ++ ['.', '.'])
        ((if out.length > 0 then out ++ ['/'] else out) ++ ['.', '.']).length
  | elem (out : GoString) (dd : Nat) (e : GoString) : Canon rooted out dd → NormalElem e →
      Canon rooted (cleanSep rooted out ++ e) dd

/-- The content of a file made of the given lines, each one terminated by a newline. -/
def fileOfLines : List GoString → GoString
  | [] => []
  | l :: ls => l ++ '\n' :: fileOfLines ls

/-! ## Values used in the examples -/

/-- A syntax check that accepts exactly the strings that are not empty. -/
def acceptNonEmpty (s : GoString) : Option Unit :=
  if s = [] then none else some ()

/-- The environment in which no variable is set. -/
def emptyEnv : GoString → GoString :=
  fun _ => []

/-- The environment in which only the variable `name` is set, to `value`. -/
def singleEnv (name value : GoString) : GoString → GoString :=
  fun v => if v = name then value else []

/-- The file system without any file or directory. -/
def emptyFS : FS :=
  { files := fun _ => none, dirs := fun _ => false, readonly := fun _ => false, space := 4096 }

/-- The file system with one regular file and no directory. -/
def singleFile (name content : GoString) : FS :=
  { files := fun p => if p = name then some content else none, dirs := fun _ => false,
    readonly := fun _ => false, space := 4096 }

/-- The file system in which the files can grow by `n` bytes. -/
def FS.withSpace (fs : FS) (n : Nat) : FS :=
  { fs with space := n }

/-- The file system in which the process may not open `name` for writing. -/
def FS.withReadonly (fs : FS) (name : GoString) : FS :=
  { fs with readonly := fun p => p = name || fs.readonly p }

/-! ## The loop of `path.Clean` -/

theorem cleanLoop_nil (rooted m : Bool) (out : GoString) (dd : Nat) :
    cleanLoop rooted m [] out dd = (out, dd) := by
  cases m <;> rfl

theorem cleanLoop_true_cons (rooted : Bool) (c : Char) (r out : GoString) (dd : Nat) :
    cleanLoop rooted true (c :: r) out dd =
      if c = '/' then cleanLoop rooted false r out dd
      else cleanLoop rooted true r (out ++ [c]) dd := rfl

theorem cleanLoop_false_cons (rooted : Bool) (c : Char) (r out : GoString) (dd : Nat) :
    cleanLoop rooted false (c :: r) out dd =
    if c = '/' then cleanLoop rooted false r out dd
    else if c = '.' ∧ (r = [] ∨ r.head? = some '/') then cleanLoop rooted false r out dd
    else if c = '.' ∧ r.head? = some '.' ∧ (r.tail = [] ∨ r.tail.head? = some '/') then
      match r with
      | [] => (out, dd)
      | _ :: r2 =>
        if out.length > dd then
          cleanLoop rooted false r2 (out.take (cleanBack out dd (out.length - 1))) dd
        else if !rooted then
          cleanLoop rooted false r2 ((if out.length > 0 then out ++ ['/'] else out) ++ ['.', '.'])
            ((if out.length > 0 then out ++ ['/'] else out) ++ ['.', '.']).length
        else cleanLoop rooted false r2 out dd
    else
      cleanLoop rooted true r
        ((if (rooted && out.length != 1) || (!rooted && out.length != 0) then out ++ ['/']
          else out) ++ [c]) dd := by
  rcases r with _ | ⟨d, r2⟩
  · rfl
  · rfl

theorem cleanLoop_copy (rooted : Bool) (e t : GoString) (he : '/' ∉ e) (out : GoString) (dd : Nat) :
    cleanLoop rooted true (e ++ t) out dd = cleanLoop rooted true t (out ++ e) dd := by
  induction e generalizing out with
  | nil => simp
  | cons c e ih =>
    have hc : c ≠ '/' := fun h => he (by simp [h])
    have he2 : '/' ∉ e := fun h => he (by simp [h])
    simp [cleanLoop_true_cons, hc, ih he2]

theorem cleanLoop_append_slash (rooted : Bool) (n : Nat) :
    ∀ (m : Bool) (x : GoString), x.length ≤ n → ∀ (out : GoString) (dd : Nat) (y : GoString),
    cleanLoop rooted m (x ++ '/' :: y) out dd =
      cleanLoop rooted false y (cleanLoop rooted m x out dd).1 (cleanLoop rooted m x out dd).2 := by
  induction n with
  | zero =>
    intro m x hx out dd y
    have : x = [] := List.length_eq_zero.mp (Nat.le_zero.mp hx)
    subst this
    cases m <;> simp [cleanLoop_true_cons, cleanLoop_false_cons, cleanLoop_nil]
  | succ n ih =>
    intro m x hx out dd y
    rcases x with _ | ⟨c, r⟩
    · cases m <;> simp [cleanLoop_true_cons, cleanLoop_false_cons, cleanLoop_nil]
    · have hr : r.length ≤ n := by simpa using hx
      cases m
      · -- at the head of the loop
        rcases r with _ | ⟨d, r2⟩
        · simp only [List.cons_append, List.nil_append, cleanLoop_false_cons, cleanLoop_nil,
            cleanLoop_true_cons]
          split_ifs <;> simp_all [cleanLoop_nil, cleanLoop_false_cons]
        · have hr2 : r2.length ≤ n := by simp at hr; omega
          have hdr : (d :: r2).length ≤ n := hr
          rw [List.cons_append, List.cons_append, cleanLoop_false_cons rooted c (d :: (r2 ++ '/' :: y)),
            cleanLoop_false_cons rooted c (d :: r2)]
          by_cases hc : c = '/'
          · rw [if_pos hc, if_pos hc, ← List.cons_append]
            exact ih false (d :: r2) hdr out dd y
          · rw [if_neg hc, if_neg hc]
            by_cases h1 : c = '.' ∧ d = '/'
            · have e1 : (c = '.' ∧ (d :: (r2 ++ '/' :: y) = [] ∨ (d :: (r2 ++ '/' :: y)).head? = some '/')) := by
                simp [h1.1, h1.2]
              have e2 : (c = '.' ∧ (d :: r2 = [] ∨ (d :: r2).head? = some '/')) := by
                simp [h1.1, h1.2]
              rw [if_pos e1, if_pos e2, ← List.cons_append]
              exact ih false (d :: r2) hdr out dd y
            · have e1 : ¬ (c = '.' ∧ (d :: (r2 ++ '/' :: y) = [] ∨ (d :: (r2 ++ '/' :: y)).head? = some '/')) := by
                simpa using h1
              have e2 : ¬ (c = '.' ∧ (d :: r2 = [] ∨ (d :: r2).head? = some '/')) := by
                simpa using h1
              rw [if_neg e1, if_neg e2]
              have e3 : (c = '.' ∧ (d :: (r2 ++ '/' :: y)).head? = some '.' ∧
                  ((d :: (r2 ++ '/' :: y)).tail = [] ∨ (d :: (r2 ++ '/' :: y)).tail.head? = some '/')) ↔
                  (c = '.' ∧ (d :: r2).head? = some '.' ∧
                  ((d :: r2).tail = [] ∨ (d :: r2).tail.head? = some '/')) := by
                rcases r2 with _ | ⟨e, r3⟩ <;> simp
              by_cases h2 : (c = '.' ∧ (d :: r2).head? = some '.' ∧
                  ((d :: r2).tail = [] ∨ (d :: r2).tail.head? = some '/'))
              · rw [if_pos (e3.mpr h2), if_pos h2]
                simp only []
                split_ifs
                · exact ih false r2 hr2 _ _ y
                · exact ih false r2 hr2 _ _ y
                · exact ih false r2 hr2 _ _ y
                · exact ih false r2 hr2 _ _ y
              · rw [if_neg (fun h => h2 (e3.mp h)), if_neg h2, ← List.cons_append]
                exact ih true (d :: r2) hdr _ dd y
      · by_cases hc : c = '/'
        · simp [cleanLoop_true_cons, hc, ih false r hr]
        · simp [cleanLoop_true_cons, hc, ih true r hr]

theorem cleanLoop_dot (rooted : Bool) (out : GoString) (dd : Nat) :
    cleanLoop rooted false ['.'] out dd = (out, dd) := by
  simp [cleanLoop_false_cons, cleanLoop_nil]

theorem cleanLoop_dotdot (rooted : Bool) (out : GoString) (dd : Nat) :
    cleanLoop rooted false ['.', '.'] out dd =
      if out.length > dd then (out.take (cleanBack out dd (out.length - 1)), dd)
      else if !rooted then
        ((if out.length > 0 then out ++ ['/'] else out) ++ ['.', '.'],
          ((if out.length > 0 then out ++ ['/'] else out) ++ ['.', '.']).length)
      else (out, dd) := by
  rw [cleanLoop_false_cons]
  simp only [cleanLoop_nil]
  simp

theorem cleanLoop_normal (rooted : Bool) (e : GoString) (he : NormalElem e) (out : GoString)
    (dd : Nat) : cleanLoop rooted false e out dd = (cleanSep rooted out ++ e, dd) := by
  obtain ⟨h0, hs, h1, h2⟩ := he
  rcases e with _ | ⟨c, r⟩
  · exact absurd rfl h0
  · have hc : c ≠ '/' := fun h => hs (by simp [h])
    have hr : '/' ∉ r := fun h => hs (by simp [h])
    have e1 : ¬ (c = '.' ∧ (r = [] ∨ r.head? = some '/')) := by
      rintro ⟨rfl, h | h⟩
      · exact h1 (by rw [h])
      · rcases r with _ | ⟨d, r2⟩
        · simp at h
        · simp at h; exact hr (by simp [h])
    have e2 : ¬ (c = '.' ∧ r.head? = some '.' ∧ (r.tail = [] ∨ r.tail.head? = some '/')) := by
      rintro ⟨rfl, h, h'⟩
      rcases r with _ | ⟨d, r2⟩
      · simp at h
      · simp at h
        subst h
        rcases h' with h' | h'
        · simp at h'; exact h2 (by rw [h'])
        · rcases r2 with _ | ⟨e, r3⟩
          · simp at h'
          · simp at h'; exact hr (by simp [h'])
    rw [cleanLoop_false_cons, if_neg hc, if_neg e1, if_neg e2]
    have := cleanLoop_copy rooted r [] hr
      ((if (rooted && out.length != 1) || (!rooted && out.length != 0) then out ++ ['/']
          else out) ++ [c]) dd
    rw [List.append_nil] at this
    rw [this, cleanLoop_nil]
    simp [cleanSep]

theorem elem_cases (e : GoString) (he : '/' ∉ e) :
    e = [] ∨ e = ['.'] ∨ e = ['.', '.'] ∨ NormalElem e := by
  by_cases h0 : e = []
  · exact Or.inl h0
  · by_cases h1 : e = ['.']
    · exact Or.inr (Or.inl h1)
    · by_cases h2 : e = ['.', '.']
      · exact Or.inr (Or.inr (Or.inl h2))
      · exact Or.inr (Or.inr (Or.inr ⟨h0, he, h1, h2⟩))

theorem cleanBack_eq (buf : GoString) (dd a : Nat) (ha : dd ≤ a)
    (hstop : a = dd ∨ buf.getD a '/' = '/') :
    ∀ k : Nat, (∀ j, 1 ≤ j → j ≤ k → buf.getD (a + j) '/' ≠ '/') →
      cleanBack buf dd (a + k) = a := by
  intro k
  induction k with
  | zero =>
    intro _
    rcases a with _ | w
    · rfl
    · simp only [Nat.add_zero, cleanBack]
      rw [if_neg]
      rintro ⟨h1, h2⟩
      rcases hstop with h | h
      · omega
      · exact h2 h
  | succ k ih =>
    intro h
    have hk : a + (k + 1) = (a + k) + 1 := by omega
    rw [hk, cleanBack, if_pos]
    · exact ih (fun j h1 h2 => h j h1 (by omega))
    · refine ⟨by omega, ?_⟩
      have := h (k + 1) (by omega) (by omega)
      rwa [hk] at this

theorem Canon.dd_le {rooted : Bool} {out : GoString} {dd : Nat} (h : Canon rooted out dd) :
    dd ≤ out.length := by
  induction h with
  | root _ => simp
  | empty _ => simp
  | dots out _ _ _ => exact Nat.le_refl _
  | elem out dd e _ _ ih =>
    simp only [List.length_append]
    have : out.length ≤ (cleanSep rooted out).length := by
      unfold cleanSep; split_ifs <;> simp
    omega

theorem Canon.of_rooted {out : GoString} {dd : Nat} (h : Canon true out dd) :
    dd = 1 ∧ ∃ o, out = '/' :: o := by
  generalize hr : true = rooted at h
  induction h with
  | root _ => exact ⟨rfl, [], rfl⟩
  | empty h => rw [h] at hr; cases hr
  | dots out h _ _ => rw [h] at hr; cases hr
  | elem out dd e _ _ ih =>
    obtain ⟨h1, o, rfl⟩ := ih
    refine ⟨h1, ?_⟩
    unfold cleanSep
    split_ifs <;> simp

theorem Canon.of_unrooted {out : GoString} {dd : Nat} (h : Canon false out dd) :
    out.head? ≠ some '/' := by
  generalize hr : false = rooted at h
  induction h with
  | root h => rw [h] at hr; cases hr
  | empty _ => simp
  | dots out _ _ ih =>
    have := ih
    rcases out with _ | ⟨c, o⟩
    · simp
    · simpa using this
  | elem out dd e _ he ih =>
    have := ih
    subst hr
    rcases out with _ | ⟨c, o⟩
    · obtain ⟨h0, hs, _⟩ := he
      rcases e with _ | ⟨c, r⟩
      · exact absurd rfl h0
      · simp [cleanSep]
        intro h; exact hs (by simp [h])
    · simpa [cleanSep] using this

theorem Canon.last_elem {rooted : Bool} {out : GoString} {dd : Nat} (h : Canon rooted out dd)
    (hlt : dd < out.length) :
    ∃ out0 e, Canon rooted out0 dd ∧ NormalElem e ∧ out = cleanSep rooted out0 ++ e := by
  cases h with
  | root _ => simp at hlt
  | empty _ => simp at hlt
  | dots out _ _ => exact absurd hlt (Nat.lt_irrefl _)
  | elem out0 dd e h he => exact ⟨out0, e, h, he, rfl⟩

theorem getD_append_right_ne (a e : GoString) (he : '/' ∉ e) (j : Nat) (hj : j < e.length) :
    (a ++ e).getD (a.length + j) '/' ≠ '/' := by
  rw [List.getD_eq_getElem _ _ (by simp; omega)]
  rw [List.getElem_append_right (by omega)]
  intro h
  apply he
  rw [← h]
  exact List.getElem_mem _

theorem cleanBack_elem {rooted : Bool} {out0 : GoString} {dd : Nat} (h : Canon rooted out0 dd)
    {e : GoString} (he : NormalElem e) :
    (cleanSep rooted out0 ++ e).take
      (cleanBack (cleanSep rooted out0 ++ e) dd ((cleanSep rooted out0 ++ e).length - 1)) = out0 := by
  obtain ⟨h0, hs, _, _⟩ := he
  have hlen : 0 < e.length := List.length_pos.mpr h0
  have hdd := h.dd_le
  by_cases hsep : ((rooted && out0.length != 1) || (!rooted && out0.length != 0)) = true
  · have hcs : cleanSep rooted out0 = out0 ++ ['/'] := by simp only [cleanSep]; rw [if_pos hsep]
    rw [hcs]
    have hbuf : out0 ++ ['/'] ++ e = out0 ++ '/' :: e := by simp
    rw [hbuf]
    have hl : (out0 ++ '/' :: e).length - 1 = out0.length + e.length := by simp
    have hslash : (out0 ++ '/' :: e).getD out0.length '/' = '/' := by
      rw [List.getD_eq_getElem _ _ (by simp)]
      rw [List.getElem_append_right (Nat.le_refl _)]
      simp
    have := cleanBack_eq (out0 ++ '/' :: e) dd out0.length hdd (Or.inr hslash) e.length
      (by
        intro j h1 h2
        have := getD_append_right_ne (out0 ++ ['/']) e hs (j - 1) (by omega)
        rw [hbuf] at this
        have e1 : (out0 ++ ['/']).length + (j - 1) = out0.length + j := by simp; omega
        rwa [e1] at this)
    rw [hl, this]
    simp
  · have hcs : cleanSep rooted out0 = out0 := by simp only [cleanSep]; rw [if_neg hsep]
    rw [hcs]
    have hdd2 : out0.length = dd := by
      cases rooted
      · simp at hsep
        have : out0.length = 0 := by simpa using hsep
        omega
      · obtain ⟨h1, o, rfl⟩ := h.of_rooted
        simp at hsep
        simp [hsep, h1]
    have hl : (out0 ++ e).length - 1 = out0.length + (e.length - 1) := by simp; omega
    have := cleanBack_eq (out0 ++ e) dd out0.length hdd (Or.inl hdd2) (e.length - 1)
      (by
        intro j h1 h2
        exact getD_append_right_ne out0 e hs j (by omega))
    rw [hl, this]
    simp

theorem Canon.step {rooted : Bool} {out : GoString} {dd : Nat} (h : Canon rooted out dd)
    (e : GoString) (he : '/' ∉ e) :
    Canon rooted (cleanLoop rooted false e out dd).1 (cleanLoop rooted false e out dd).2 := by
  rcases elem_cases e he with rfl | rfl | rfl | hn
  · rw [cleanLoop_nil]; exact h
  · rw [cleanLoop_dot]; exact h
  · rw [cleanLoop_dotdot]
    by_cases hlt : out.length > dd
    · rw [if_pos hlt]
      obtain ⟨out0, e, h0, hn, rfl⟩ := h.last_elem hlt
      simp only []
      rw [cleanBack_elem h0 hn]
      exact h0
    · rw [if_neg hlt]
      cases rooted
      · have hlen : out.length = dd := by have := h.dd_le; omega
        subst hlen
        exact Canon.dots out rfl h
      · exact h
  · rw [cleanLoop_normal rooted e hn]
    exact Canon.elem out dd e h hn

theorem split_at_slash (x : GoString) (hx : '/' ∈ x) :
    ∃ e y, '/' ∉ e ∧ x = e ++ '/' :: y := by
  induction x with
  | nil => simp at hx
  | cons c r ih =>
    by_cases hc : c = '/'
    · exact ⟨[], r, by simp, by simp [hc]⟩
    · have : '/' ∈ r := by
        rcases List.mem_cons.mp hx with h | h
        · exact absurd h.symm hc
        · exact h
      obtain ⟨e, y, he, rfl⟩ := ih this
      refine ⟨c :: e, y, ?_, by simp⟩
      intro h
      rcases List.mem_cons.mp h with h | h
      · exact hc h.symm
      · exact he h

theorem Canon.loop (rooted : Bool) (n : Nat) : ∀ (x : GoString), x.length ≤ n →
    ∀ {out : GoString} {dd : Nat}, Canon rooted out dd →
    Canon rooted (cleanLoop rooted false x out dd).1 (cleanLoop rooted false x out dd).2 := by
  induction n with
  | zero =>
    intro x hx out dd h
    have : x = [] := List.length_eq_zero.mp (Nat.le_zero.mp hx)
    subst this
    rw [cleanLoop_nil]; exact h
  | succ n ih =>
    intro x hx out dd h
    by_cases hs : '/' ∈ x
    · obtain ⟨e, y, he, rfl⟩ := split_at_slash x hs
      rw [cleanLoop_append_slash rooted e.length false e (Nat.le_refl _)]
      apply ih y (by simp at hx; omega)
      exact h.step e he
    · exact h.step x hs

/-- The state in which the loop of `path.Clean` starts. -/
theorem Canon.init (rooted : Bool) :
    Canon rooted (if rooted then ['/'] else []) (if rooted then 1 else 0) := by
  cases rooted
  · exact Canon.empty rfl
  · exact Canon.root rfl

theorem Canon.replay {rooted : Bool} {out : GoString} {dd : Nat} (h : Canon rooted out dd) :
    cleanLoop rooted false (out.drop (if rooted then 1 else 0)) (if rooted then ['/'] else [])
      (if rooted then 1 else 0) = (out, dd) := by
  induction h with
  | root hr => subst hr; simp [cleanLoop_nil]
  | empty hr => subst hr; simp [cleanLoop_nil]
  | dots out hr h ih =>
    subst hr
    simp only [Bool.false_eq_true, if_false, List.drop_zero] at ih ⊢
    by_cases hlen : out.length > 0
    · rw [if_pos hlen]
      have e1 : out ++ ['/'] ++ ['.', '.'] = out ++ '/' :: ['.', '.'] := by simp
      rw [e1, cleanLoop_append_slash false out.length false out (Nat.le_refl _), ih]
      simp only []
      rw [cleanLoop_dotdot]
      simp [hlen]
    · rw [if_neg hlen]
      have : out = [] := by
        rcases out with _ | ⟨c, o⟩
        · rfl
        · simp at hlen
      subst this
      rw [List.nil_append, cleanLoop_dotdot]
      simp
  | elem out dd e h he ih =>
    cases rooted
    · simp only [Bool.false_eq_true, if_false, List.drop_zero] at ih ⊢
      by_cases hlen : out.length = 0
      · have : out = [] := List.length_eq_zero.mp hlen
        subst this
        have hdd : dd = 0 := by have := h.dd_le; simpa using this
        subst hdd
        have : cleanSep false [] = [] := by simp [cleanSep]
        rw [this, List.nil_append, cleanLoop_normal false e he, this, List.nil_append]
      · have hcs : cleanSep false out = out ++ ['/'] := by simp [cleanSep, hlen]
        have e1 : out ++ ['/'] ++ e = out ++ '/' :: e := by simp
        rw [hcs, e1, cleanLoop_append_slash false out.length false out (Nat.le_refl _), ih]
        simp only []
        rw [cleanLoop_normal false e he, hcs, e1]
    · simp only [if_true] at ih ⊢
      obtain ⟨hdd, o, rfl⟩ := h.of_rooted
      subst hdd
      by_cases hlen : o = []
      · subst hlen
        have : cleanSep true ['/'] = ['/'] := by simp [cleanSep]
        rw [this]
        simp only [List.singleton_append, List.drop_succ_cons, List.drop_zero]
        rw [cleanLoop_normal true e he, this]
        simp
      · have hcs : cleanSep true ('/' :: o) = '/' :: o ++ ['/'] := by
          simp [cleanSep, hlen]
        have e1 : ('/' :: o ++ ['/'] ++ e).drop 1 = o ++ '/' :: e := by simp
        simp only [List.drop_succ_cons, List.drop_zero] at ih
        rw [hcs, e1, cleanLoop_append_slash true o.length false o (Nat.le_refl _), ih]
        simp only []
        rw [cleanLoop_normal true e he, hcs]

theorem Clean_rooted (a : GoString) :
    Clean ('/' :: a) = (cleanLoop true false a ['/'] 1).1 := by
  have hc := (Canon.loop true a.length a (Nat.le_refl _) (Canon.root rfl)).of_rooted
  obtain ⟨_, o, ho⟩ := hc
  simp [Clean, ho]

theorem Clean_unrooted (a : GoString) (ha : a ≠ []) (h : a.head? ≠ some '/') :
    Clean a = if (cleanLoop false false a [] 0).1 = [] then ['.']
      else (cleanLoop false false a [] 0).1 := by
  simp [Clean, ha, h]

theorem Clean_ne_nil (a : GoString) : Clean a ≠ [] := by
  unfold Clean
  simp only []
  split_ifs with h1 h2 h3 h4
  · simp
  · simp
  · intro h; exact h3 (by rw [h]; rfl)
  · simp
  · intro h; exact h4 (by rw [h]; rfl)

/-- Cleaning a path before more elements are appended to it changes nothing: `path.Clean` of
`Clean a`, a slash and `b` is `path.Clean` of `a`, a slash and `b`. -/
theorem Clean_Clean_append (a b : GoString) (ha : a ≠ []) :
    Clean (Clean a ++ '/' :: b) = Clean (a ++ '/' :: b) := by
  rcases a with _ | ⟨c, a⟩
  · exact absurd rfl ha
  · by_cases hc : c = '/'
    · subst hc
      have hcan := Canon.loop true a.length a (Nat.le_refl _) (Canon.root rfl)
      obtain ⟨hdd, o, ho⟩ := hcan.of_rooted
      have hrep := hcan.replay
      simp only [if_true, ho, List.drop_succ_cons, List.drop_zero] at hrep
      rw [Clean_rooted a, ho, List.cons_append, List.cons_append, Clean_rooted, Clean_rooted,
        cleanLoop_append_slash true o.length false o (Nat.le_refl _), hrep,
        cleanLoop_append_slash true a.length false a (Nat.le_refl _), ho]
    · have hh : (c :: a).head? ≠ some '/' := by simpa using hc
      have hcan := Canon.loop false (c :: a).length (c :: a) (Nat.le_refl _)
        (Canon.empty rfl)
      have hrep := hcan.replay
      simp only [Bool.false_eq_true, if_false, List.drop_zero] at hrep
      have hR : Clean ((c :: a) ++ '/' :: b) =
          if (cleanLoop false false b (cleanLoop false false (c :: a) [] 0).1
            (cleanLoop false false (c :: a) [] 0).2).1 = [] then ['.']
          else (cleanLoop false false b (cleanLoop false false (c :: a) [] 0).1
            (cleanLoop false false (c :: a) [] 0).2).1 := by
        rw [Clean_unrooted _ (by simp) (by simpa using hc),
          cleanLoop_append_slash false (c :: a).length false (c :: a) (Nat.le_refl _)]
      rw [hR, Clean_unrooted (c :: a) (by simp) hh]
      by_cases he : (cleanLoop false false (c :: a) [] 0).1 = []
      · rw [if_pos he]
        have hdd : (cleanLoop false false (c :: a) [] 0).2 = 0 := by
          have := hcan.dd_le
          rw [he] at this
          simpa using this
        rw [Clean_unrooted _ (by simp) (by simp), he, hdd]
        have : cleanLoop false false (['.'] ++ '/' :: b) [] 0 = cleanLoop false false b [] 0 := by
          rw [cleanLoop_append_slash false 1 false ['.'] (Nat.le_refl _), cleanLoop_dot]
        rw [this]
      · rw [if_neg he]
        have hne := hcan.of_unrooted
        rw [Clean_unrooted _ (by simp [he]) (by
          rcases h : (cleanLoop false false (c :: a) [] 0).1 with _ | ⟨d, o⟩
          · exact absurd h he
          · rw [h] at hne; simpa using hne),
          cleanLoop_append_slash false _ false _ (Nat.le_refl _), hrep]

theorem Join_cons (e : GoString) (es : List GoString) (he : e ≠ []) :
    Join (e :: es) = Clean (joinSlash (e :: es)) := by
  simp [Join, List.dropWhile, he]

theorem Join_nil_cons (es : List GoString) : Join ([] :: es) = Join es := by
  simp [Join, List.dropWhile]

theorem joinSlash_append (xs ys : List GoString) (hx : xs ≠ []) (hy : ys ≠ []) :
    joinSlash (xs ++ ys) = joinSlash xs ++ '/' :: joinSlash ys := by
  induction xs with
  | nil => exact absurd rfl hx
  | cons x xs ih =>
    rcases xs with _ | ⟨x2, xs⟩
    · rcases ys with _ | ⟨y, ys⟩
      · exact absurd rfl hy
      · simp [joinSlash]
    · have := ih (by simp)
      simp only [List.cons_append] at this ⊢
      simp [joinSlash, this]

theorem joinSlash_ne_nil (e : GoString) (es : List GoString) (he : e ≠ []) :
    joinSlash (e :: es) ≠ [] := by
  rcases es with _ | ⟨x, xs⟩ <;> simp [joinSlash, he]

/-- Joining in two steps is joining in one step: `path.Join(path.Join(es...), y, z)` is
`path.Join(es..., y, z)` when the first element of `es` is not empty. -/
theorem Join_Join (e : GoString) (es : List GoString) (y z : GoString) (he : e ≠ []) :
    Join [Join (e :: es), y, z] = Join (e :: es ++ [y, z]) := by
  rw [Join_cons e es he, Join_cons _ _ (Clean_ne_nil _)]
  have h1 : joinSlash [Clean (joinSlash (e :: es)), y, z] =
      Clean (joinSlash (e :: es)) ++ '/' :: joinSlash [y, z] := by
    simp [joinSlash]
  rw [h1, Clean_Clean_append _ _ (joinSlash_ne_nil e es he), List.cons_append,
    Join_cons e _ he, ← List.cons_append, joinSlash_append _ _ (by simp) (by simp)]

/-- Joining in two steps, when the first element may be empty and the second is not. -/
theorem Join_Join_home (home x : GoString) (xs : List GoString) (y z : GoString) (hx : x ≠ []) :
    Join [Join (home :: x :: xs), y, z] = Join (home :: x :: xs ++ [y, z]) := by
  by_cases hh : home = []
  · subst hh
    rw [Join_nil_cons, List.cons_append, Join_nil_cons]
    exact Join_Join x xs y z hx
  · exact Join_Join home (x :: xs) y z hh

/-! ## `ParseLicenses` on the lines of a file -/

theorem Trim_line (l : GoString) (hl : '\n' ∉ l) : Trim (l ++ ['\n']) ['\n'] = l := by
  unfold Trim
  rcases l with _ | ⟨c, r⟩
  · simp [List.rdropWhile]
  · have hc : c ≠ '\n' := fun h => hl (by simp [h])
    have h1 : ((c :: r) ++ ['\n']).dropWhile (fun c => decide (c ∈ ['\n'])) = (c :: r) ++ ['\n'] := by
      rw [List.cons_append, List.dropWhile_cons_of_neg]
      simpa using hc
    rw [h1, List.rdropWhile_concat_pos _ _ _ (by simp)]
    rw [List.rdropWhile_eq_self_iff]
    intro hne
    have hmem := List.getLast_mem hne
    simp only [List.mem_singleton, decide_eq_true_eq]
    intro h
    exact hl (h ▸ hmem)

theorem ReadString_line (l r : GoString) (fin : GoError) (hl : '\n' ∉ l) :
    Reader.ReadString { rest := l ++ '\n' :: r, fin := fin } '\n' =
      ((l ++ ['\n'], none), { rest := r, fin := fin }) := by
  have hp : ∀ a ∈ l, (fun c => decide (c ≠ '\n')) a = true := by
    intro a ha
    simp only [ne_eq, decide_not, Bool.not_eq_true', decide_eq_false_iff_not]
    intro h; exact hl (h ▸ ha)
  have ht : (l ++ '\n' :: r).takeWhile (fun c => decide (c ≠ '\n')) = l := by
    rw [List.takeWhile_append_of_pos hp]
    simp
  have hd : (l ++ '\n' :: r).dropWhile (fun c => decide (c ≠ '\n')) = '\n' :: r := by
    rw [List.dropWhile_append_of_pos hp]
    simp
  simp only [Reader.ReadString]
  rw [if_pos (by simp), ht, hd]
  rfl

theorem process_line (l r : GoString) (fin : GoError) (hl : '\n' ∉ l) :
    process { rest := l ++ '\n' :: r, fin := fin } = ((l, none), { rest := r, fin := fin }) := by
  simp only [process, ReadString_line l r fin hl]
  simp [Trim_line l hl]

theorem process_end (t : GoString) (fin : GoError) (ht : '\n' ∉ t) :
    process { rest := t, fin := fin } = (([], some fin), { rest := [], fin := fin }) := by
  simp [process, Reader.ReadString, ht]

theorem fileOfLines_append (xs ys : List GoString) :
    fileOfLines (xs ++ ys) = fileOfLines xs ++ fileOfLines ys := by
  induction xs with
  | nil => rfl
  | cons x xs ih => simp [fileOfLines, ih]

theorem length_le_fileOfLines (ls : List GoString) : ls.length ≤ (fileOfLines ls).length := by
  induction ls with
  | nil => simp
  | cons l ls ih => simp [fileOfLines]; omega

theorem parseLoop_lines (line0 : GoString) (ls : List GoString) (hls : ∀ l ∈ ls, '\n' ∉ l)
    (t : GoString) (ht : '\n' ∉ t) :
    ∀ (fuel : Nat) (ret : List GoString), ls.length < fuel →
      parseLoop none line0 fuel { rest := fileOfLines ls ++ t, fin := .EOF } ret =
        some (ret ++ ls.filter (fun l => l ≠ []), none) := by
  induction ls with
  | nil =>
    intro fuel ret hf
    rcases fuel with _ | fuel
    · simp at hf
    · simp [parseLoop, fileOfLines, process_end t .EOF ht]
  | cons l ls ih =>
    intro fuel ret hf
    rcases fuel with _ | fuel
    · simp at hf
    · have hl : '\n' ∉ l := hls l (by simp)
      have hls2 : ∀ l ∈ ls, '\n' ∉ l := fun x hx => hls x (by simp [hx])
      have e1 : fileOfLines (l :: ls) ++ t = l ++ '\n' :: (fileOfLines ls ++ t) := by
        simp [fileOfLines]
      rw [e1]
      simp only [parseLoop, process_line l _ .EOF hl, if_true]
      rw [if_neg (by simp), if_neg (by simp), ih hls2 fuel _ (by simpa using hf)]
      by_cases h0 : l = []
      · simp [h0]
      · simp [h0, List.filter_cons]

/-- The result of `ParseLicenses` on a file made of newline-terminated lines followed by
bytes without a newline: the non-empty lines, in order, and no error. -/
theorem ParseLicenses_lines (fs : FS) (lfile : GoString) (ls : List GoString)
    (hls : ∀ l ∈ ls, '\n' ∉ l) (t : GoString) (ht : '\n' ∉ t)
    (hfile : fs.files lfile = some (fileOfLines ls ++ t)) :
    ParseLicenses fs lfile = some (ls.filter (fun l => l ≠ []), none) := by
  unfold ParseLicenses osOpen
  rw [hfile]
  rcases ls with _ | ⟨l, ls⟩
  · simp [fileOfLines, process_end t .EOF ht]
  · have hl : '\n' ∉ l := hls l (by simp)
    have hls2 : ∀ l ∈ ls, '\n' ∉ l := fun x hx => hls x (by simp [hx])
    have e1 : fileOfLines (l :: ls) ++ t = l ++ '\n' :: (fileOfLines ls ++ t) := by
      simp [fileOfLines]
    simp only [e1, process_line l _ .EOF hl]
    rw [if_neg (by simp), if_neg (by simp)]
    rw [parseLoop_lines _ ls hls2 t ht _ _ (by
      have := length_le_fileOfLines ls
      simp only [List.length_append]; omega)]
    by_cases h0 : l = []
    · simp [h0]
    · simp [h0, List.filter_cons]

theorem exists_lines (n : Nat) : ∀ c : GoString, c.length ≤ n →
    ∃ (ls : List GoString) (t : GoString),
      (∀ l ∈ ls, '\n' ∉ l) ∧ '\n' ∉ t ∧ c = fileOfLines ls ++ t := by
  induction n with
  | zero =>
    intro c hc
    have : c = [] := List.length_eq_zero.mp (Nat.le_zero.mp hc)
    exact ⟨[], [], by simp, by simp, by simp [this, fileOfLines]⟩
  | succ n ih =>
    intro c hc
    by_cases hn : '\n' ∈ c
    · obtain ⟨l, r, hr⟩ := List.append_of_mem hn
      -- split at the first newline
      have hsplit : ∃ l r, '\n' ∉ l ∧ c = l ++ '\n' :: r := by
        clear hr hc ih
        induction c with
        | nil => simp at hn
        | cons a c ihc =>
          by_cases ha : a = '\n'
          · exact ⟨[], c, by simp, by simp [ha]⟩
          · have : '\n' ∈ c := by
              rcases List.mem_cons.mp hn with h | h
              · exact absurd h.symm ha
              · exact h
            obtain ⟨l, r, hl, hc⟩ := ihc this
            refine ⟨a :: l, r, ?_, by simp [hc]⟩
            intro h
            rcases List.mem_cons.mp h with h | h
            · exact ha h.symm
            · exact hl h
      obtain ⟨l, r, hl, rfl⟩ := hsplit
      obtain ⟨ls, t, hls, ht, rfl⟩ := ih r (by simp at hc; omega)
      refine ⟨l :: ls, t, ?_, ht, by simp [fileOfLines]⟩
      intro x hx
      rcases List.mem_cons.mp hx with h | h
      · exact h ▸ hl
      · exact hls x h
    · exact ⟨[], c, by simp, hn, by simp [fileOfLines]⟩

/-- Every call of `ParseLicenses` returns: the iteration bound of the model is never reached. -/
theorem ParseLicenses_isSome (fs : FS) (lfile : GoString) : (ParseLicenses fs lfile).isSome := by
  rcases hf : fs.files lfile with _ | c
  · unfold ParseLicenses osOpen
    rw [hf]
    by_cases hd : fs.dirs lfile = true
    · simp [hd, process_end [] _ (by simp)]
    · simp [hd]
  · obtain ⟨ls, t, hls, ht, rfl⟩ := exists_lines c.length c (Nat.le_refl _)
    rw [ParseLicenses_lines fs lfile ls hls t ht hf]
    rfl

/-! ## The paths through `AddLicense` -/

theorem Join_ne_nil (d x y : GoString) (hx : x ≠ []) : Join [d, x, y] ≠ [] := by
  by_cases hd : d = []
  · subst hd
    rw [Join_nil_cons, Join_cons x _ hx]
    exact Clean_ne_nil _
  · rw [Join_cons d _ hd]
    exact Clean_ne_nil _

theorem LicenseFile_ne_nil (env : GoString → GoString) (home platform : GoString) :
    LicenseFile env home platform ≠ [] := by
  unfold LicenseFile
  by_cases h : env envvar ≠ []
  · rw [if_pos h]; exact h
  · rw [if_neg h]
    exact Join_ne_nil _ _ _ (by decide)

theorem Dir_ne_nil (p : GoString) : Dir p ≠ [] := Clean_ne_nil _

@[simp] theorem FS.withFile_files_same (fs : FS) (p c : GoString) :
    (fs.withFile p c).files p = some c := by
  simp [FS.withFile]

@[simp] theorem FS.withFile_dirs (fs : FS) (p c : GoString) :
    (fs.withFile p c).dirs = fs.dirs := rfl

@[simp] theorem FS.withDir_files (fs : FS) (p : GoString) :
    (fs.withDir p).files = fs.files := rfl

/-- With a regular file at the store path, `AddLicense` goes straight to parsing it. -/
theorem AddLicense_present {Token : Type} (RawToken : GoString → Option Token)
    (env : GoString → GoString) (home platform : GoString) (fs : FS) (t c : GoString)
    (hv : (RawToken t).isSome) (hfile : fs.files (LicenseFile env home platform) = some c) :
    AddLicense RawToken env home platform fs t =
      appendLicense fs (LicenseFile env home platform) t := by
  obtain ⟨tok, htok⟩ := Option.isSome_iff_exists.mp hv
  simp only [AddLicense, htok]
  rw [if_neg (LicenseFile_ne_nil env home platform)]
  simp [osStat, hfile, IsNotExist]

/-- The license is already in the file: nothing is written. -/
theorem appendLicense_dup (fs : FS) (p t : GoString) (lics : List GoString)
    (hparse : ParseLicenses fs p = some (lics, none)) (hmem : t ∈ lics) :
    appendLicense fs p t = some (none, fs) := by
  simp only [appendLicense, hparse]
  rw [if_neg (by simp), if_pos (by simpa using hmem)]

theorem ParseLicenses_file (fs : FS) (p c : GoString) (hfile : fs.files p = some c) :
    ∃ lics, ParseLicenses fs p = some (lics, none) := by
  obtain ⟨ls, t, hls, ht, rfl⟩ := exists_lines c.length c (Nat.le_refl _)
  exact ⟨_, ParseLicenses_lines fs p ls hls t ht hfile⟩

theorem ParseLicenses_ok_file (fs : FS) (p : GoString) (lics : List GoString)
    (h : ParseLicenses fs p = some (lics, none)) : ∃ c, fs.files p = some c := by
  rcases hf : fs.files p with _ | c
  · exfalso
    unfold ParseLicenses osOpen at h
    rw [hf] at h
    by_cases hd : fs.dirs p = true
    · simp [hd, process_end [] _ (by simp)] at h
    · simp [hd] at h
  · exact ⟨c, rfl⟩

theorem fileOfLines_snoc (ls : List GoString) (t u : GoString) :
    fileOfLines ls ++ t ++ u ++ ['\n'] = fileOfLines (ls ++ [t ++ u]) ++ [] := by
  simp [fileOfLines_append, fileOfLines]

theorem snoc_lines_ok (ls : List GoString) (tail t : GoString)
    (hls : ∀ l ∈ ls, '\n' ∉ l) (htail : '\n' ∉ tail) (hnl : '\n' ∉ t) :
    ∀ l ∈ ls ++ [tail ++ t], '\n' ∉ l := by
  intro l hl
  rcases List.mem_append.mp hl with h | h
  · exact hls l h
  · have : l = tail ++ t := by simpa using h
    subst this
    simp [htail, hnl]

theorem filter_snoc_ne_nil (ls : List GoString) (u : GoString) (hu : u ≠ []) :
    (ls ++ [u]).filter (fun l => l ≠ []) = ls.filter (fun l => l ≠ []) ++ [u] := by
  simp [List.filter_append, List.filter_cons, hu]

/-- Values of `path.Clean`, `path.Join` and `path.Dir` from the documentation and the tests of
the Go standard library. -/
theorem path_examples :
    Clean "".toList = ".".toList ∧
    Clean "abc/def/".toList = "abc/def".toList ∧
    Clean "//abc//".toList = "/abc".toList ∧
    Clean "abc/./def".toList = "abc/def".toList ∧
    Clean "abc/def/../..".toList = ".".toList ∧
    Clean "/abc/../..".toList = "/".toList ∧
    Clean "abc/def/../../..".toList = "..".toList ∧
    Clean "abc/../../././../def".toList = "../../def".toList ∧
    Join ["a".toList, "b/../c".toList] = "a/c".toList ∧
    Join [[], "b".toList] = "b".toList ∧
    Join [[], []] = [] ∧
    Join ["/".toList, "a".toList] = "/a".toList ∧
    Dir "/a/b/".toList = "/a/b".toList ∧
    Dir "abc".toList = ".".toList ∧
    Dir "/".toList = "/".toList := by
  refine ⟨?_, ?_, ?_, ?_, ?_, ?_, ?_, ?_, ?_, ?_, ?_, ?_, ?_, ?_, ?_⟩ <;> decide

/-! ## The path below the configuration directory -/

theorem NormalElem_soupnazi : NormalElem "soupnazi".toList :=
  ⟨by decide, by decide, by decide, by decide⟩

theorem NormalElem_licenses : NormalElem "licenses".toList :=
  ⟨by decide, by decide, by decide, by decide⟩

/-- The loop of `path.Clean` on `soupnazi/licenses`, from any state. -/
theorem cleanLoop_soupnazi_licenses (rooted : Bool) (out : GoString) (dd : Nat) :
    (cleanLoop rooted false "soupnazi/licenses".toList out dd).1 =
      cleanSep rooted out ++ "soupnazi/licenses".toList := by
  have e : "soupnazi/licenses".toList = "soupnazi".toList ++ '/' :: "licenses".toList := by
    decide
  rw [e, cleanLoop_append_slash rooted _ false _ (Nat.le_refl _),
    cleanLoop_normal rooted _ NormalElem_soupnazi, cleanLoop_normal rooted _ NormalElem_licenses]
  have hs : cleanSep rooted (cleanSep rooted out ++ "soupnazi".toList) =
      cleanSep rooted out ++ "soupnazi".toList ++ ['/'] := by
    have hl : (cleanSep rooted out ++ "soupnazi".toList).length =
        (cleanSep rooted out).length + 8 := by
      rw [List.length_append]; rfl
    generalize cleanSep rooted out ++ "soupnazi".toList = x at hl
    unfold cleanSep
    rw [if_pos]
    cases rooted
    · simp; intro h; rw [h] at hl; simp at hl
    · simp; omega
  simp only []
  rw [hs]
  simp

/-- The value of `path.Join(d, "soupnazi", "licenses")` is `soupnazi/licenses`, or it ends with
`/soupnazi/licenses`. -/
theorem Join_soupnazi_licenses (d : GoString) :
    Join [d, "soupnazi".toList, "licenses".toList] = "soupnazi/licenses".toList ∨
      "/soupnazi/licenses".toList <:+ Join [d, "soupnazi".toList, "licenses".toList] := by
  rcases d with _ | ⟨c, a⟩
  · left; decide
  · rw [Join_cons _ _ (by simp)]
    have hj : joinSlash [c :: a, "soupnazi".toList, "licenses".toList] =
        (c :: a) ++ '/' :: "soupnazi/licenses".toList := by
      simp [joinSlash]
    rw [hj]
    by_cases hc : c = '/'
    · subst hc
      right
      rw [List.cons_append, Clean_rooted,
        cleanLoop_append_slash true a.length false a (Nat.le_refl _),
        cleanLoop_soupnazi_licenses]
      unfold cleanSep
      split_ifs with h
      · rw [List.append_assoc]
        exact List.suffix_append _ _
      · have hcan := Canon.loop true a.length a (Nat.le_refl _) (Canon.root rfl)
        obtain ⟨_, o, ho⟩ := hcan.of_rooted
        rw [ho] at h ⊢
        have : o = [] := by
          rcases o with _ | ⟨x, o⟩
          · rfl
          · simp at h
        subst this
        exact List.suffix_refl _
    · have hne : (cleanLoop false false ((c :: a) ++ '/' :: "soupnazi/licenses".toList) [] 0).1 =
          cleanSep false (cleanLoop false false (c :: a) [] 0).1 ++
            "soupnazi/licenses".toList := by
        rw [cleanLoop_append_slash false (c :: a).length false (c :: a) (Nat.le_refl _),
          cleanLoop_soupnazi_licenses]
      rw [Clean_unrooted _ (by simp) (by simpa using hc), hne]
      rw [if_neg (by simp)]
      unfold cleanSep
      split_ifs with h
      · right
        rw [List.append_assoc]
        exact List.suffix_append _ _
      · left
        have : (cleanLoop false false (c :: a) [] 0).1 = [] := by
          simpa using h
        rw [this]
        rfl

/-! ## Files in which every line is terminated -/

theorem fileOfLines_terminated (ls : List GoString) :
    fileOfLines ls = [] ∨ (fileOfLines ls).getLast? = some '\n' := by
  induction ls with
  | nil => left; rfl
  | cons l ls ih =>
    right
    rcases ih with h | h
    · simp [fileOfLines, h, List.getLast?_append]
    · simp [fileOfLines, List.getLast?_append, List.getLast?_cons, h]

/-- A content that is empty or ends with a newline is made of terminated lines only. -/
theorem terminated_lines (c : GoString) (hc : c = [] ∨ c.getLast? = some '\n') :
    ∃ ls : List GoString, (∀ l ∈ ls, '\n' ∉ l) ∧ c = fileOfLines ls := by
  obtain ⟨ls, t, hls, ht, rfl⟩ := exists_lines c.length c (Nat.le_refl _)
  refine ⟨ls, hls, ?_⟩
  rcases t with _ | ⟨x, t⟩
  · simp
  · exfalso
    rcases hc with h | h
    · simp at h
    · rw [List.getLast?_append] at h
      have h2 : (x :: t).getLast? = some ((x :: t).getLast (by simp)) :=
        List.getLast?_eq_getLast _ _
      rw [h2] at h
      have h3 : (x :: t).getLast (by simp) = '\n' := by simpa using h
      exact ht (h3 ▸ List.getLast_mem _)

/-- Removing everything after the last newline of a content leaves its terminated lines. -/
theorem rdropWhile_lines (ls : List GoString) (t : GoString) (ht : '\n' ∉ t) :
    (fileOfLines ls ++ t).rdropWhile (fun b => b ≠ '\n') = fileOfLines ls := by
  have h1 : (fileOfLines ls ++ t).rdropWhile (fun b => b ≠ '\n') =
      (fileOfLines ls).rdropWhile (fun b => b ≠ '\n') := by
    unfold List.rdropWhile
    rw [List.reverse_append, List.dropWhile_append_of_pos]
    intro a ha
    have : a ∈ t := List.mem_reverse.mp ha
    simp only [ne_eq, decide_not, Bool.not_eq_true', decide_eq_false_iff_not]
    intro h; exact ht (h ▸ this)
  rw [h1, List.rdropWhile_eq_self_iff]
  intro hne
  rcases fileOfLines_terminated ls with h | h
  · exact absurd h hne
  · rw [List.getLast?_eq_getLast _ hne] at h
    have := Option.some.inj h
    simp [this]

theorem getLast_snoc_newline (c t : GoString) : (c ++ t ++ ['\n']).getLast? = some '\n' := by
  simp

/-- The error of the unreachable return of `ParseLicenses` is not returned, on any file
system and for any path. -/
theorem ParseLicenses_ne_corrupted (fs : FS) (p : GoString) (l : List GoString)
    (line : GoString) :
    ParseLicenses fs p ≠
      some (l, some (.errorf ("License file corrupted, ended with ".toList ++ line))) := by
  rcases hf : fs.files p with _ | c
  · unfold ParseLicenses osOpen
    rw [hf]
    by_cases hd : fs.dirs p = true
    · simp [hd, process_end [] _ (by simp)]
    · simp only [hd, Bool.false_eq_true, if_false]
      intro h
      have h1 := (Prod.mk.inj (Option.some.inj h)).2
      have h2 := GoError.errorf.inj (Option.some.inj h1)
      have h3 := congrArg List.head? h2
      have e1 : ("Error trying to open license file ".toList ++ p ++ ": ".toList ++
          (GoError.pathError "open".toList p (lookupErrno fs p)).Error).head? = some 'E' := rfl
      have e2 : ("License file corrupted, ended with ".toList ++ line).head? = some 'L' := rfl
      rw [e1, e2] at h3
      exact absurd h3 (by decide)
  · obtain ⟨lics, h⟩ := ParseLicenses_file fs p c hf
    rw [h]
    simp

/-! ## The outcomes of `AddLicense` -/

theorem appendLicense_isSome (fs : FS) (p t : GoString) :
    (appendLicense fs p t).isSome := by
  obtain ⟨⟨lics, err⟩, h⟩ := Option.isSome_iff_exists.mp (ParseLicenses_isSome fs p)
  simp only [appendLicense, h]
  split_ifs
  · rfl
  · rfl
  · rcases hf : osOpenFile fs p with e | f
    · rfl
    · simp only [File.Seek, File.Write]
      split_ifs <;> rfl

/-- The outcomes of lines 161 to 176 when the license is not in the file: the file cannot be
opened for writing and nothing changes; or the license and a newline are written at the end;
or the write stops for lack of space after the bytes that fit. -/
theorem appendLicense_outcome (fs : FS) (p t c : GoString) (lics : List GoString)
    (hfile : fs.files p = some c)
    (hparse : ParseLicenses fs p = some (lics, none)) (hmem : t ∉ lics) :
    ∃ (err : Option GoError) (fs1 : FS), appendLicense fs p t = some (err, fs1) ∧
      fs1.dirs = fs.dirs ∧
      ((err = some (.errorf ("Error trying to open license file ".toList ++ p ++
            ": ".toList ++ (GoError.pathError "open".toList p .EACCES).Error)) ∧ fs1 = fs) ∨
        (err = none ∧ fs1.files p = some (c ++ t ++ ['\n'])) ∨
        (err = some (.errorf ("Error writing license to ".toList ++ p ++
            ": ".toList ++ (GoError.pathError "write".toList p .ENOSPC).Error)) ∧
          fs1.files p = some (c ++ (t ++ ['\n']).take fs.space) ∧
          fs.space < t.length + 1)) := by
  simp only [appendLicense, hparse]
  rw [if_neg (by simp), if_neg (by simpa using hmem)]
  by_cases hro : fs.readonly p = true
  · simp only [osOpenFile, hfile, hro, if_true]
    exact ⟨_, fs, rfl, rfl, Or.inl ⟨rfl, rfl⟩⟩
  · simp only [osOpenFile, hfile, hro, Bool.false_eq_true, if_false, File.Seek, File.Write,
      Option.getD_some, if_true, Nat.add_zero, Nat.sub_self, List.replicate_zero,
      List.append_nil, List.take_length, Nat.zero_add]
    have hlen : (t ++ ['\n']).length = t.length + 1 := by simp
    by_cases hsp : t.length + 1 ≤ fs.space
    · have hmin : min (t ++ ['\n']).length fs.space = t.length + 1 := by
        rw [hlen]; exact Nat.min_eq_left hsp
      rw [hmin]
      have hnlt : ¬ (t.length + 1 < (t ++ ['\n']).length) := by rw [hlen]; omega
      simp only [hnlt, if_false]
      refine ⟨_, _, rfl, rfl, Or.inr (Or.inl ⟨rfl, ?_⟩)⟩
      have htk : (t ++ ['\n']).take (t.length + 1) = t ++ ['\n'] := by
        rw [← hlen]; exact List.take_length _
      have hdrop : List.drop (c.length + (t.length + 1)) c = [] :=
        List.drop_eq_nil_of_le (by omega)
      simp [FS.withFile, htk, hdrop]
    · have hmin : min (t ++ ['\n']).length fs.space = fs.space := by
        rw [hlen]; exact Nat.min_eq_right (by omega)
      rw [hmin]
      have hlt : fs.space < (t ++ ['\n']).length := by rw [hlen]; omega
      simp only [hlt, if_true]
      refine ⟨_, _, rfl, rfl, Or.inr (Or.inr ⟨rfl, ?_, by omega⟩)⟩
      have hdrop : List.drop (c.length + fs.space) c = [] :=
        List.drop_eq_nil_of_le (by omega)
      simp [FS.withFile, hdrop]

/-- When `ParseLicenses` returns an error, `AddLicense` returns the error of line 150 and
writes nothing. -/
theorem appendLicense_parse_error (fs : FS) (p t : GoString) (lics : List GoString)
    (e : GoError) (hparse : ParseLicenses fs p = some (lics, some e)) :
    appendLicense fs p t =
      some (some (.errorf "License file at %!s(MISSING) is corrupted: %!v(MISSING)".toList),
        fs) := by
  simp only [appendLicense, hparse]
  rw [if_pos (by simp)]

theorem ParseLicenses_nofile_error (fs : FS) (p : GoString) (hfile : fs.files p = none) :
    ∃ lics e, ParseLicenses fs p = some (lics, some e) := by
  obtain ⟨⟨lics, err⟩, h⟩ := Option.isSome_iff_exists.mp (ParseLicenses_isSome fs p)
  rcases err with _ | e
  · obtain ⟨c, hc⟩ := ParseLicenses_ok_file fs p lics h
    rw [hfile] at hc
    cases hc
  · exact ⟨lics, e, h⟩

/-- A successful `os.MkdirAll` leaves the directory in place and touches no file. -/
theorem osMkdirAll_ok (fs fs1 : FS) (path : GoString) (h : osMkdirAll fs path = (none, fs1)) :
    fs1.files = fs.files ∧ fs1.dirs path = true := by
  unfold osMkdirAll at h
  by_cases hd : fs.dirs path = true
  · rw [if_pos hd] at h
    have := (Prod.mk.inj h).2
    subst this
    exact ⟨rfl, hd⟩
  · rw [if_neg hd] at h
    split_ifs at h
    · have := (Prod.mk.inj h).1
      cases this
    · have := (Prod.mk.inj h).2
      subst this
      exact ⟨rfl, by simp⟩

/-- A failed `os.MkdirAll` changes nothing. -/
theorem osMkdirAll_error (fs fs1 : FS) (path : GoString) (e : GoError)
    (h : osMkdirAll fs path = (some e, fs1)) : fs1 = fs := by
  unfold osMkdirAll at h
  split_ifs at h
  · exact ((Prod.mk.inj h).2).symm
  · exact ((Prod.mk.inj h).2).symm
  · have := (Prod.mk.inj h).1
    cases this

/-- A successful `os.Create` leaves an empty file, in a directory that exists. -/
theorem osCreate_ok (fs fs1 : FS) (name : GoString) (h : osCreate fs name = (none, fs1)) :
    fs1.files name = some [] ∧ fs1.dirs = fs.dirs ∧ fs.dirs (Dir name) = true := by
  unfold osCreate at h
  by_cases h1 : (decide (name.getLast? = some '/') || fs.dirs name) = true
  · rw [if_pos h1] at h
    cases (Prod.mk.inj h).1
  · rw [if_neg h1] at h
    by_cases h2 : (!fs.dirs (Dir name)) = true
    · rw [if_pos h2] at h
      cases (Prod.mk.inj h).1
    · rw [if_neg h2] at h
      by_cases h3 : ((fs.files name).isSome && fs.readonly name) = true
      · rw [if_pos h3] at h
        cases (Prod.mk.inj h).1
      · rw [if_neg h3] at h
        have := (Prod.mk.inj h).2
        subst this
        refine ⟨by simp [FS.withFile], rfl, ?_⟩
        simpa using h2

/-- A failed `os.Create` changes nothing. -/
theorem osCreate_error (fs fs1 : FS) (name : GoString) (e : GoError)
    (h : osCreate fs name = (some e, fs1)) : fs1 = fs := by
  unfold osCreate at h
  by_cases h1 : (decide (name.getLast? = some '/') || fs.dirs name) = true
  · rw [if_pos h1] at h
    exact ((Prod.mk.inj h).2).symm
  · rw [if_neg h1] at h
    by_cases h2 : (!fs.dirs (Dir name)) = true
    · rw [if_pos h2] at h
      exact ((Prod.mk.inj h).2).symm
    · rw [if_neg h2] at h
      by_cases h3 : ((fs.files name).isSome && fs.readonly name) = true
      · rw [if_pos h3] at h
        exact ((Prod.mk.inj h).2).symm
      · rw [if_neg h3] at h
        cases (Prod.mk.inj h).1

/-- The outcomes of `AddLicense` with an accepted token when there is no regular file at the
store path: an error before any file exists there, or an empty file in an existing directory
followed by lines 148 to 176. -/
theorem AddLicense_nofile_outcome {Token : Type} (RawToken : GoString → Option Token)
    (env : GoString → GoString) (home platform : GoString) (fs : FS) (t : GoString)
    (hv : (RawToken t).isSome) (hfile : fs.files (LicenseFile env home platform) = none) :
    ∃ (err : Option GoError) (fs1 : FS),
      AddLicense RawToken env home platform fs t = some (err, fs1) ∧
      ((err ≠ none ∧ fs1.files (LicenseFile env home platform) = none) ∨
        ∃ fsC : FS, fsC.files (LicenseFile env home platform) = some [] ∧
          fsC.dirs (Dir (LicenseFile env home platform)) = true ∧
          appendLicense fsC (LicenseFile env home platform) t = some (err, fs1)) := by
  obtain ⟨tok, htok⟩ := Option.isSome_iff_exists.mp hv
  obtain ⟨lics, e, hparse⟩ := ParseLicenses_nofile_error fs _ hfile
  have hskip : appendLicense fs (LicenseFile env home platform) t =
      some (some (.errorf "License file at %!s(MISSING) is corrupted: %!v(MISSING)".toList),
        fs) := appendLicense_parse_error fs _ t lics e hparse
  simp only [AddLicense, htok]
  rw [if_neg (LicenseFile_ne_nil env home platform)]
  by_cases hnx : IsNotExist (osStat fs (LicenseFile env home platform)) = true
  · rw [if_pos hnx, if_neg (Dir_ne_nil _)]
    rcases hmk : osMkdirAll fs (Dir (LicenseFile env home platform)) with ⟨em, fsM⟩
    rcases em with _ | em
    · obtain ⟨hMf, hMd⟩ := osMkdirAll_ok fs fsM _ hmk
      simp only []
      rcases hcr : osCreate fsM (LicenseFile env home platform) with ⟨ec, fsC⟩
      rcases ec with _ | ec
      · obtain ⟨hCf, hCd, _⟩ := osCreate_ok fsM fsC _ hcr
        simp only []
        rcases hap : appendLicense fsC (LicenseFile env home platform) t with _ | ⟨err, fs1⟩
        · exact absurd hap (by
            have := appendLicense_isSome fsC (LicenseFile env home platform) t
            intro h; rw [h] at this; cases this)
        · exact ⟨err, fs1, rfl, Or.inr ⟨fsC, hCf, by rw [hCd]; exact hMd, hap⟩⟩
      · have := osCreate_error fsM fsC _ ec hcr
        subst this
        simp only []
        exact ⟨_, _, rfl, Or.inl ⟨by simp, by rw [hMf]; exact hfile⟩⟩
    · have := osMkdirAll_error fs fsM _ em hmk
      subst this
      simp only []
      exact ⟨_, _, rfl, Or.inl ⟨by simp, hfile⟩⟩
  · rw [if_neg hnx, hskip]
    exact ⟨_, _, rfl, Or.inl ⟨by simp, hfile⟩⟩

/-- Every call of `AddLicense` returns. -/
theorem AddLicense_isSome {Token : Type} (RawToken : GoString → Option Token)
    (env : GoString → GoString) (home platform : GoString) (fs : FS) (lic : GoString) :
    (AddLicense RawToken env home platform fs lic).isSome := by
  rcases hv : RawToken lic with _ | tok
  · simp only [AddLicense, hv]
    rfl
  · have hsome : (RawToken lic).isSome := by rw [hv]; rfl
    rcases hf : fs.files (LicenseFile env home platform) with _ | c
    · obtain ⟨err, fs1, h, _⟩ :=
        AddLicense_nofile_outcome RawToken env home platform fs lic hsome hf
      rw [h]; rfl
    · rw [AddLicense_present RawToken env home platform fs lic c hsome hf]
      exact appendLicense_isSome _ _ _

/-- The outcomes of lines 148 to 176 on an existing regular file: the license is already
there and nothing changes; or it is not and the file cannot be opened for writing; or it is
written, with a newline, at the end; or the write stops for lack of space. -/
theorem appendLicense_stage (fs : FS) (p t c : GoString) (hfile : fs.files p = some c) :
    ∃ (err : Option GoError) (fs1 : FS) (lics : List GoString),
      ParseLicenses fs p = some (lics, none) ∧ appendLicense fs p t = some (err, fs1) ∧
      fs1.dirs = fs.dirs ∧
      ((t ∈ lics ∧ err = none ∧ fs1 = fs) ∨
        (t ∉ lics ∧ err = some (.errorf ("Error trying to open license file ".toList ++ p ++
            ": ".toList ++ (GoError.pathError "open".toList p .EACCES).Error)) ∧ fs1 = fs) ∨
        (t ∉ lics ∧ err = none ∧ fs1.files p = some (c ++ t ++ ['\n'])) ∨
        (t ∉ lics ∧ err = some (.errorf ("Error writing license to ".toList ++ p ++
            ": ".toList ++ (GoError.pathError "write".toList p .ENOSPC).Error)) ∧
          fs1.files p = some (c ++ (t ++ ['\n']).take fs.space) ∧
          fs.space < t.length + 1)) := by
  obtain ⟨lics, hparse⟩ := ParseLicenses_file fs p c hfile
  by_cases hmem : t ∈ lics
  · exact ⟨none, fs, lics, hparse, appendLicense_dup fs p t lics hparse hmem, rfl,
      Or.inl ⟨hmem, rfl, rfl⟩⟩
  · obtain ⟨err, fs1, h1, hd, h2⟩ := appendLicense_outcome fs p t c lics hfile hparse hmem
    refine ⟨err, fs1, lics, hparse, h1, hd, Or.inr ?_⟩
    rcases h2 with ⟨he, hf⟩ | ⟨he, hf⟩ | ⟨he, hf, hs⟩
    · exact Or.inl ⟨hmem, he, hf⟩
    · exact Or.inr (Or.inl ⟨hmem, he, hf⟩)
    · exact Or.inr (Or.inr ⟨hmem, he, hf, hs⟩)

/-- A call of `AddLicense` that returns no error leaves a file whose content is the content
before the call (empty if the file was created), extended by the license and a newline when
the license was not among its lines. -/
theorem AddLicense_success {Token : Type} (RawToken : GoString → Option Token)
    (env : GoString → GoString) (home platform : GoString) (fs fs1 : FS) (t : GoString)
    (hv : (RawToken t).isSome)
    (h : AddLicense RawToken env home platform fs t = some (none, fs1)) :
    ∃ c0 : GoString,
      (fs.files (LicenseFile env home platform) = some c0 ∨
        (fs.files (LicenseFile env home platform) = none ∧ c0 = [] ∧
          fs1.dirs (Dir (LicenseFile env home platform)) = true)) ∧
      ∀ (ls : List GoString) (tail : GoString), (∀ l ∈ ls, '\n' ∉ l) → '\n' ∉ tail →
        c0 = fileOfLines ls ++ tail →
        (t ∈ ls.filter (fun l => l ≠ []) ∧
            fs1.files (LicenseFile env home platform) = some c0) ∨
          (t ∉ ls.filter (fun l => l ≠ []) ∧
            fs1.files (LicenseFile env home platform) = some (c0 ++ t ++ ['\n'])) := by
  have key : ∀ (fsA : FS) (c0 : GoString),
      fsA.files (LicenseFile env home platform) = some c0 →
      appendLicense fsA (LicenseFile env home platform) t = some (none, fs1) →
      fs1.dirs = fsA.dirs ∧
      ∀ (ls : List GoString) (tail : GoString), (∀ l ∈ ls, '\n' ∉ l) → '\n' ∉ tail →
        c0 = fileOfLines ls ++ tail →
        (t ∈ ls.filter (fun l => l ≠ []) ∧
            fs1.files (LicenseFile env home platform) = some c0) ∨
          (t ∉ ls.filter (fun l => l ≠ []) ∧
            fs1.files (LicenseFile env home platform) = some (c0 ++ t ++ ['\n'])) := by
    intro fsA c0 hA hap
    obtain ⟨err, fs1', lics, hparse, hap', hd, hcases⟩ := appendLicense_stage fsA _ t c0 hA
    rw [hap] at hap'
    have hpair := Option.some.inj hap'
    have he : none = err := (Prod.mk.inj hpair).1
    have hfs : fs1 = fs1' := (Prod.mk.inj hpair).2
    subst hfs
    subst he
    refine ⟨hd, ?_⟩
    intro ls tail hls htail hc0
    have hp2 := ParseLicenses_lines fsA _ ls hls tail htail (hc0 ▸ hA)
    rw [hparse] at hp2
    have hl : lics = ls.filter (fun l => l ≠ []) := (Prod.mk.inj (Option.some.inj hp2)).1
    rw [← hl]
    rcases hcases with ⟨hm, _, hf⟩ | ⟨_, he, _⟩ | ⟨hm, _, hf⟩ | ⟨_, he, _⟩
    · exact Or.inl ⟨hm, by rw [hf]; exact hA⟩
    · cases he
    · exact Or.inr ⟨hm, hf⟩
    · cases he
  rcases hf : fs.files (LicenseFile env home platform) with _ | c
  · obtain ⟨err, fs1', h1, hcases⟩ :=
      AddLicense_nofile_outcome RawToken env home platform fs t hv hf
    rw [h] at h1
    have hpair := Option.some.inj h1
    have he : none = err := (Prod.mk.inj hpair).1
    have hfs : fs1 = fs1' := (Prod.mk.inj hpair).2
    subst hfs
    subst he
    rcases hcases with ⟨hne, _⟩ | ⟨fsC, hCf, hCd, hap⟩
    · exact absurd rfl hne
    · obtain ⟨hd, hk⟩ := key fsC [] hCf hap
      exact ⟨[], Or.inr ⟨rfl, rfl, by rw [hd]; exact hCd⟩, hk⟩
  · rw [AddLicense_present RawToken env home platform fs t c hv hf] at h
    exact ⟨c, Or.inl rfl, (key fs c hf h).2⟩

theorem result_ne_unable (msg : GoString) (fs fs1 : FS) (h : msg.head? ≠ some 'U') :
    (some (some (GoError.errorf msg), fs) : Option (Option GoError × FS)) ≠
      some (some (.errorf "Unable to identify settings file".toList), fs1) := by
  intro heq
  have h1 := (Prod.mk.inj (Option.some.inj heq)).1
  have h2 := GoError.errorf.inj (Option.some.inj h1)
  rw [h2] at h
  exact h rfl

theorem appendLicense_ne_unable (fs fs1 : FS) (p t : GoString) :
    appendLicense fs p t ≠
      some (some (.errorf "Unable to identify settings file".toList), fs1) := by
  obtain ⟨⟨lics, err⟩, h⟩ := Option.isSome_iff_exists.mp (ParseLicenses_isSome fs p)
  simp only [appendLicense, h]
  by_cases h1 : err ≠ none
  · rw [if_pos h1]
    exact result_ne_unable _ _ _ (by decide)
  · rw [if_neg h1]
    by_cases h2 : (lics.any fun l => decide (t = l)) = true
    · rw [if_pos h2]
      simp
    · rw [if_neg h2]
      rcases hf : osOpenFile fs p with e | f
      · exact result_ne_unable _ _ _ (by show some 'E' ≠ some 'U'; decide)
      · simp only [File.Seek]
        generalize File.Write fs _ (t ++ ['\n']) = w
        rcases w with ⟨⟨n, ew⟩, fsW, fW⟩
        rcases ew with _ | ew
        · simp
        · exact result_ne_unable _ _ _ (by show some 'E' ≠ some 'U'; decide)

/-- Values of the calls on files, on small file systems: `os.Stat` below a regular file,
`os.MkdirAll` and the directories it creates, `os.Create` on a name that ends with a slash
and in a directory that does not exist, `os.OpenFile` on a file that may not be written, and
`Write` at the end of a file, past its end, and without enough space. -/
theorem os_examples :
    osStat (singleFile "/tmp/pf".toList "x".toList) "/tmp/pf/lic".toList =
      some (.pathError "stat".toList "/tmp/pf/lic".toList .ENOTDIR) ∧
    osStat emptyFS "/tmp/pf/lic".toList =
      some (.pathError "stat".toList "/tmp/pf/lic".toList .ENOENT) ∧
    ancestors "/a/b/c".toList = ["/a/b".toList, "/a".toList, "/".toList] ∧
    ancestors "b/c".toList = ["b".toList, ".".toList] ∧
    (osMkdirAll (singleFile "/a".toList "x".toList) "/a/b/c".toList).1 =
      some (.pathError "mkdir".toList "/a/b/c".toList .ENOTDIR) ∧
    ((osMkdirAll emptyFS "/a/b/c".toList).1,
      ["/a/b/c".toList, "/a/b".toList, "/a".toList, "/".toList, "/a/x".toList].map
        (osMkdirAll emptyFS "/a/b/c".toList).2.dirs) =
      (none, [true, true, true, true, false]) ∧
    (osCreate ((osMkdirAll emptyFS "/tmp/vd".toList).2) "/tmp/vd/".toList).1 =
      some (.pathError "open".toList "/tmp/vd/".toList .EISDIR) ∧
    (osCreate emptyFS "/tmp/vd/lic".toList).1 =
      some (.pathError "open".toList "/tmp/vd/lic".toList .ENOENT) ∧
    ((osCreate ((osMkdirAll emptyFS "/tmp/vd".toList).2) "/tmp/vd/lic".toList).1,
      (osCreate ((osMkdirAll emptyFS "/tmp/vd".toList).2) "/tmp/vd/lic".toList).2.files
        "/tmp/vd/lic".toList) = (none, some []) ∧
    osOpenFile ((singleFile "f".toList "a".toList).withReadonly "f".toList) "f".toList =
      .error (.pathError "open".toList "f".toList .EACCES) ∧
    ((File.Write (singleFile "f".toList "a\n".toList) { name := "f".toList, offset := 2 }
        "bc".toList).1,
      (File.Write (singleFile "f".toList "a\n".toList) { name := "f".toList, offset := 2 }
        "bc".toList).2.1.files "f".toList) = ((2, none), some "a\nbc".toList) ∧
    ((File.Write (singleFile "f".toList "a".toList) { name := "f".toList, offset := 3 }
        "bc".toList).2.1.files "f".toList) =
      some ['a', Char.ofNat 0, Char.ofNat 0, 'b', 'c'] ∧
    ((File.Write ((singleFile "f".toList "a\n".toList).withSpace 1)
        { name := "f".toList, offset := 2 } "bc".toList).1,
      (File.Write ((singleFile "f".toList "a\n".toList).withSpace 1)
        { name := "f".toList, offset := 2 } "bc".toList).2.1.files "f".toList) =
      ((1, some (.pathError "write".toList "f".toList .ENOSPC)), some "a\nb".toList) := by
  refine ⟨?_, ?_, ?_, ?_, ?_, ?_, ?_, ?_, ?_, ?_, ?_, ?_, ?_⟩ <;> first | decide | rfl

/-! ## The claims -/

/-- C1. For a file whose content is a concatenation of lines without `'\n'`, each terminated by
`'\n'` (some may be empty), `ParseLicenses` returns no error and exactly the non-empty lines,
in file order: blank lines are skipped wherever they are. -/
theorem ParseLicenses_terminated_lines (fs : FS) (lfile : GoString) (ls : List GoString)
    (hls : ∀ l ∈ ls, '\n' ∉ l) (hfile : fs.files lfile = some (fileOfLines ls)) :
    ParseLicenses fs lfile = some (ls.filter (fun l => l ≠ []), none) :=
  ParseLicenses_lines fs lfile ls hls [] (by simp) (by simpa using hfile)

theorem ParseLicenses_terminated_lines_witness :
    (∀ l ∈ [[], "ab".toList, [], [], "c".toList, []], '\n' ∉ l) ∧
    (singleFile "f".toList "\nab\n\n\nc\n\n".toList).files "f".toList =
      some (fileOfLines [[], "ab".toList, [], [], "c".toList, []]) ∧
    ParseLicenses (singleFile "f".toList "\nab\n\n\nc\n\n".toList) "f".toList =
      some (["ab".toList, "c".toList], none) :=
  ⟨by decide, by decide,
    ParseLicenses_terminated_lines _ _ [[], "ab".toList, [], [], "c".toList, []]
      (by decide) (by decide)⟩

/-- C2, at the failing input. On a file with the content `tok1\ntok2`, whose last line is not
terminated, `ParseLicenses` returns the list `[tok1]` and no error: the bytes after the last
newline are dropped without a word. -/
theorem ParseLicenses_unterminated_returns_no_error :
    ParseLicenses (singleFile "f".toList "tok1\ntok2".toList) "f".toList =
      some (["tok1".toList], none) := by
  decide

/-- C3, as stated, fails. A regular file stands at `/tmp/pf` and the store path is
`/tmp/pf/lic`: nothing exists at the store path, `os.Stat` answers `ENOTDIR`, the file is not
created, and the first call and the second call both return the error of line 150. -/
theorem AddLicense_idempotent_counterexample :
    (acceptNonEmpty "t".toList).isSome ∧
    (singleFile "/tmp/pf".toList "x".toList).files "/tmp/pf/lic".toList = none ∧
    (singleFile "/tmp/pf".toList "x".toList).dirs "/tmp/pf/lic".toList = false ∧
    osStat (singleFile "/tmp/pf".toList "x".toList) "/tmp/pf/lic".toList =
      some (.pathError "stat".toList "/tmp/pf/lic".toList .ENOTDIR) ∧
    ((AddLicense acceptNonEmpty (singleEnv envvar "/tmp/pf/lic".toList) [] "linux".toList
        (singleFile "/tmp/pf".toList "x".toList) "t".toList).bind
      (fun r => (AddLicense acceptNonEmpty (singleEnv envvar "/tmp/pf/lic".toList) []
        "linux".toList r.2 "t".toList).map (fun r2 => (r.1, r2.1)))) =
      some (some (.errorf "License file at %!s(MISSING) is corrupted: %!v(MISSING)".toList),
        some (.errorf "License file at %!s(MISSING) is corrupted: %!v(MISSING)".toList)) := by
  refine ⟨by decide, by decide, by decide, by decide, by decide⟩

/-- C3, as amended. For a valid token `t` (not empty, without `'\n'`) and a store that is
absent, or whose parsed entries contain `t` at most once, two calls of `AddLicense` with `t`
in a row both return. When both return no error, `ParseLicenses` on the file they leave
returns a list that contains `t` exactly once. When the first returns no error and the store
was absent, empty or ended with `'\n'`, the second returns no error and changes nothing. -/
theorem AddLicense_idempotent {Token : Type} (RawToken : GoString → Option Token)
    (env : GoString → GoString) (home platform : GoString) (fs : FS) (t : GoString)
    (hv : (RawToken t).isSome) (hne : t ≠ []) (hnl : '\n' ∉ t)
    (hstore :
      (fs.files (LicenseFile env home platform) = none ∧
        fs.dirs (LicenseFile env home platform) = false) ∨
      ∃ lics, ParseLicenses fs (LicenseFile env home platform) = some (lics, none) ∧
        lics.count t ≤ 1) :
    ∃ (err1 : Option GoError) (fs1 : FS) (err2 : Option GoError) (fs2 : FS),
      AddLicense RawToken env home platform fs t = some (err1, fs1) ∧
      AddLicense RawToken env home platform fs1 t = some (err2, fs2) ∧
      (err1 = none → err2 = none →
        ∃ lics, ParseLicenses fs2 (LicenseFile env home platform) = some (lics, none) ∧
          lics.count t = 1) ∧
      (err1 = none →
        (fs.files (LicenseFile env home platform) = none ∨
          ∃ c, fs.files (LicenseFile env home platform) = some c ∧
            (c = [] ∨ c.getLast? = some '\n')) →
        err2 = none ∧ fs2 = fs1) := by
  obtain ⟨⟨err1, fs1⟩, h1⟩ :=
    Option.isSome_iff_exists.mp (AddLicense_isSome RawToken env home platform fs t)
  obtain ⟨⟨err2, fs2⟩, h2⟩ :=
    Option.isSome_iff_exists.mp (AddLicense_isSome RawToken env home platform fs1 t)
  refine ⟨err1, fs1, err2, fs2, h1, h2, ?_, ?_⟩
  · -- both calls return no error
    intro he1 he2
    subst he1
    subst he2
    obtain ⟨c0, hc0, hk1⟩ := AddLicense_success RawToken env home platform fs fs1 t hv h1
    obtain ⟨c1, hc1, hk2⟩ := AddLicense_success RawToken env home platform fs1 fs2 t hv h2
    obtain ⟨ls, tail, hls, htail, hdec⟩ := exists_lines c0.length c0 (Nat.le_refl _)
    have hcount : (ls.filter (fun l => l ≠ [])).count t ≤ 1 := by
      rcases hstore with ⟨hfile, _⟩ | ⟨lics0, hparse0, hcount⟩
      · rcases hc0 with h | ⟨_, h, _⟩
        · rw [hfile] at h; cases h
        · have hl : ls = [] := by
            rw [h] at hdec
            rcases ls with _ | ⟨l, ls⟩
            · rfl
            · simp [fileOfLines] at hdec
          rw [hl]; simp
      · obtain ⟨c, hfile⟩ := ParseLicenses_ok_file fs _ lics0 hparse0
        rcases hc0 with h | ⟨h, _⟩
        · rw [hfile] at h
          have hcc : c = c0 := Option.some.inj h
          subst hcc
          have hp := ParseLicenses_lines fs _ ls hls tail htail (hdec ▸ hfile)
          rw [hp] at hparse0
          have hl : ls.filter (fun l => l ≠ []) = lics0 :=
            (Prod.mk.inj (Option.some.inj hparse0)).1
          rw [hl]; exact hcount
        · rw [hfile] at h; cases h
    rcases hk1 ls tail hls htail hdec with ⟨hmem, hf1⟩ | ⟨hmem, hf1⟩
    · -- the first call found the license
      have hc1' : c1 = c0 := by
        rcases hc1 with h | ⟨h, _⟩
        · rw [hf1] at h; exact (Option.some.inj h).symm
        · rw [hf1] at h; cases h
      subst hc1'
      rcases hk2 ls tail hls htail hdec with ⟨_, hf2⟩ | ⟨hnm, _⟩
      · refine ⟨_, ParseLicenses_lines fs2 _ ls hls tail htail (hdec ▸ hf2), ?_⟩
        have := List.count_pos_iff.mpr hmem
        omega
      · exact absurd hmem hnm
    · -- the first call wrote the license
      have hc0 : (ls.filter (fun l => l ≠ [])).count t = 0 := List.count_eq_zero.mpr hmem
      have hu : tail ++ t ≠ [] := by simp [hne]
      have hls1 := snoc_lines_ok ls tail t hls htail hnl
      have hdec1 : c0 ++ t ++ ['\n'] = fileOfLines (ls ++ [tail ++ t]) ++ [] := by
        rw [hdec]; exact fileOfLines_snoc ls tail t
      have hc1' : c1 = c0 ++ t ++ ['\n'] := by
        rcases hc1 with h | ⟨h, _⟩
        · rw [hf1] at h; exact (Option.some.inj h).symm
        · rw [hf1] at h; cases h
      subst hc1'
      rcases hk2 (ls ++ [tail ++ t]) [] hls1 (by simp) hdec1 with ⟨hm2, hf2⟩ | ⟨hnm2, hf2⟩
      · -- the second call found it
        have hp := ParseLicenses_lines fs2 _ (ls ++ [tail ++ t]) hls1 [] (by simp)
          (hdec1 ▸ hf2)
        refine ⟨_, hp, ?_⟩
        rw [filter_snoc_ne_nil ls _ hu] at hm2 ⊢
        have htl : tail ++ t = t := by
          rcases List.mem_append.mp hm2 with h | h
          · exact absurd h hmem
          · exact (List.mem_singleton.mp h).symm
        rw [htl, List.count_append, hc0]
        simp
      · -- the second call wrote it again, after an unterminated line
        have hls2 := snoc_lines_ok (ls ++ [tail ++ t]) [] t hls1 (by simp) hnl
        have hdec2 : c0 ++ t ++ ['\n'] ++ t ++ ['\n'] =
            fileOfLines (ls ++ [tail ++ t] ++ [[] ++ t]) ++ [] := by
          rw [hdec1]; exact fileOfLines_snoc _ [] t
        have hp := ParseLicenses_lines fs2 _ _ hls2 [] (by simp) (hdec2 ▸ hf2)
        refine ⟨_, hp, ?_⟩
        rw [filter_snoc_ne_nil ls _ hu] at hnm2
        rw [filter_snoc_ne_nil _ _ (by simpa using hne), filter_snoc_ne_nil ls _ hu]
        have hneq : t ≠ tail ++ t := by
          intro h
          exact hnm2 (List.mem_append.mpr (Or.inr (List.mem_singleton.mpr h)))
        have hc1 : List.count t [tail ++ t] = 0 := by
          apply List.count_eq_zero.mpr
          simpa using hneq
        rw [List.count_append, List.count_append, hc0, hc1]
        simp
  · -- the store was absent or terminated: the second call finds the license
    intro he1 hterm
    subst he1
    obtain ⟨c0, hc0, hk1⟩ := AddLicense_success RawToken env home platform fs fs1 t hv h1
    have hterm0 : c0 = [] ∨ c0.getLast? = some '\n' := by
      rcases hc0 with h | ⟨_, h, _⟩
      · rcases hterm with hn | ⟨c, hc, hct⟩
        · rw [hn] at h; cases h
        · rw [hc] at h
          exact Option.some.inj h ▸ hct
      · exact Or.inl h
    obtain ⟨ls, hls, hdec⟩ := terminated_lines c0 hterm0
    have hdec0 : c0 = fileOfLines ls ++ [] := by simpa using hdec
    have hfound : ∃ c1 lics, fs1.files (LicenseFile env home platform) = some c1 ∧
        ParseLicenses fs1 (LicenseFile env home platform) = some (lics, none) ∧ t ∈ lics := by
      rcases hk1 ls [] hls (by simp) hdec0 with ⟨hmem, hf1⟩ | ⟨hmem, hf1⟩
      · exact ⟨c0, _, hf1, ParseLicenses_lines fs1 _ ls hls [] (by simp) (hdec0 ▸ hf1), hmem⟩
      · have hls1 := snoc_lines_ok ls [] t hls (by simp) hnl
        have hdec1 : c0 ++ t ++ ['\n'] = fileOfLines (ls ++ [[] ++ t]) ++ [] := by
          rw [hdec]
          have := fileOfLines_snoc ls [] t
          simpa using this
        refine ⟨_, _, hf1, ParseLicenses_lines fs1 _ _ hls1 [] (by simp) (hdec1 ▸ hf1), ?_⟩
        rw [filter_snoc_ne_nil ls _ (by simpa using hne)]
        simp
    obtain ⟨c1, lics, hf1, hp1, hmem⟩ := hfound
    rw [AddLicense_present RawToken env home platform fs1 t c1 hv hf1,
      appendLicense_dup fs1 _ t lics hp1 hmem] at h2
    have hpair := Option.some.inj h2
    exact ⟨((Prod.mk.inj hpair).1).symm, ((Prod.mk.inj hpair).2).symm⟩

theorem AddLicense_idempotent_witness :
    (acceptNonEmpty "abc.def.ghi".toList).isSome ∧ "abc.def.ghi".toList ≠ [] ∧
    '\n' ∉ "abc.def.ghi".toList ∧
    emptyFS.files (LicenseFile emptyEnv "/home/u".toList "linux".toList) = none ∧
    emptyFS.dirs (LicenseFile emptyEnv "/home/u".toList "linux".toList) = false ∧
    ((AddLicense acceptNonEmpty emptyEnv "/home/u".toList "linux".toList emptyFS
        "abc.def.ghi".toList).bind
      (fun r => (AddLicense acceptNonEmpty emptyEnv "/home/u".toList "linux".toList r.2
        "abc.def.ghi".toList).map
        (fun r2 => (r.1, r2.1, r2.2.files "/home/u/.config/soupnazi/licenses".toList)))) =
      some (none, none, some "abc.def.ghi\n".toList) ∧
    ∃ (err1 : Option GoError) (fs1 : FS) (err2 : Option GoError) (fs2 : FS),
      AddLicense acceptNonEmpty emptyEnv "/home/u".toList "linux".toList emptyFS
        "abc.def.ghi".toList = some (err1, fs1) ∧
      AddLicense acceptNonEmpty emptyEnv "/home/u".toList "linux".toList fs1
        "abc.def.ghi".toList = some (err2, fs2) ∧
      (err1 = none → err2 = none →
        ∃ lics, ParseLicenses fs2 (LicenseFile emptyEnv "/home/u".toList "linux".toList) =
          some (lics, none) ∧ lics.count "abc.def.ghi".toList = 1) ∧
      (err1 = none →
        (emptyFS.files (LicenseFile emptyEnv "/home/u".toList "linux".toList) = none ∨
          ∃ c, emptyFS.files (LicenseFile emptyEnv "/home/u".toList "linux".toList) = some c ∧
            (c = [] ∨ c.getLast? = some '\n')) →
        err2 = none ∧ fs2 = fs1) :=
  ⟨by decide, by decide, by decide, by decide, by decide, by decide,
    AddLicense_idempotent acceptNonEmpty emptyEnv "/home/u".toList "linux".toList emptyFS
      "abc.def.ghi".toList (by decide) (by decide) (by decide) (Or.inl (by decide))⟩

/-- C4. For a token that `RawToken` rejects, `AddLicense` returns an error (the one saying that
the license is not a valid JWT) and the file system is the one before the call. -/
theorem AddLicense_invalid_token {Token : Type} (RawToken : GoString → Option Token)
    (env : GoString → GoString) (home platform : GoString) (fs : FS) (lic : GoString)
    (hv : RawToken lic = none) :
    AddLicense RawToken env home platform fs lic =
      some (some (.errorf ("License ".toList ++ lic ++ " is not a valid JWT".toList)), fs) := by
  simp only [AddLicense, hv]

theorem AddLicense_invalid_token_witness :
    acceptNonEmpty [] = none ∧
    AddLicense acceptNonEmpty emptyEnv "/home/u".toList "linux".toList
        (singleFile "/home/u/.config/soupnazi/licenses".toList "a\n".toList) [] =
      some (some (.errorf ("License ".toList ++ [] ++ " is not a valid JWT".toList)),
        singleFile "/home/u/.config/soupnazi/licenses".toList "a\n".toList) :=
  ⟨rfl, AddLicense_invalid_token acceptNonEmpty emptyEnv "/home/u".toList "linux".toList
    (singleFile "/home/u/.config/soupnazi/licenses".toList "a\n".toList) [] rfl⟩

/-- C5, as stated, fails. The store path is `/tmp/vd/` and the file system is empty: nothing
exists at the store path, the directory `/tmp/vd` is created, `os.Create` then fails on the
name that ends with a slash, and `AddLicense` returns the error of line 143; there is no file
afterwards. -/
theorem AddLicense_creates_store_counterexample :
    (acceptNonEmpty "t".toList).isSome ∧ "t".toList ≠ [] ∧ '\n' ∉ "t".toList ∧
    emptyFS.files "/tmp/vd/".toList = none ∧ emptyFS.dirs "/tmp/vd/".toList = false ∧
    (AddLicense acceptNonEmpty (singleEnv envvar "/tmp/vd/".toList) [] "linux".toList
        emptyFS "t".toList).map
      (fun r => (r.1, r.2.files "/tmp/vd/".toList, r.2.dirs "/tmp/vd".toList)) =
      some (some (.errorf
        "Error trying create new licenses file at /tmp/vd/: open /tmp/vd/: is a directory".toList),
        none, true) := by
  refine ⟨by decide, by decide, by decide, by decide, by decide, by decide⟩

/-- C5, as amended. For a valid token `t` (not empty, without `'\n'`) and a file system with
no file at the store path, `AddLicense` returns, and when it returns no error the directory
above the store path exists, the file has the content `t` followed by `'\n'`, and
`ParseLicenses` returns exactly `[t]` on it. -/
theorem AddLicense_creates_store {Token : Type} (RawToken : GoString → Option Token)
    (env : GoString → GoString) (home platform : GoString) (fs : FS) (t : GoString)
    (hv : (RawToken t).isSome) (hne : t ≠ []) (hnl : '\n' ∉ t)
    (hfile : fs.files (LicenseFile env home platform) = none) :
    ∃ (err : Option GoError) (fs1 : FS),
      AddLicense RawToken env home platform fs t = some (err, fs1) ∧
      (err = none →
        fs1.dirs (Dir (LicenseFile env home platform)) = true ∧
        fs1.files (LicenseFile env home platform) = some (t ++ ['\n']) ∧
        ParseLicenses fs1 (LicenseFile env home platform) = some ([t], none)) := by
  obtain ⟨⟨err, fs1⟩, h1⟩ :=
    Option.isSome_iff_exists.mp (AddLicense_isSome RawToken env home platform fs t)
  refine ⟨err, fs1, h1, ?_⟩
  intro he
  subst he
  obtain ⟨c0, hc0, hk⟩ := AddLicense_success RawToken env home platform fs fs1 t hv h1
  rcases hc0 with h | ⟨_, hc, hd⟩
  · rw [hfile] at h; cases h
  · subst hc
    rcases hk [] [] (by simp) (by simp) (by simp [fileOfLines]) with ⟨hm, _⟩ | ⟨_, hf⟩
    · simp at hm
    · have hf' : fs1.files (LicenseFile env home platform) = some (t ++ ['\n']) := by
        simpa using hf
      refine ⟨hd, hf', ?_⟩
      have h := ParseLicenses_lines fs1 (LicenseFile env home platform) [t]
        (by simpa using hnl) [] (by simp) (by simpa [fileOfLines] using hf')
      simpa [hne] using h

theorem AddLicense_creates_store_witness :
    (acceptNonEmpty "abc.def.ghi".toList).isSome ∧ "abc.def.ghi".toList ≠ [] ∧
    '\n' ∉ "abc.def.ghi".toList ∧
    emptyFS.files (LicenseFile emptyEnv "/home/u".toList "linux".toList) = none ∧
    (AddLicense acceptNonEmpty emptyEnv "/home/u".toList "linux".toList emptyFS
        "abc.def.ghi".toList).map
      (fun r => (r.1, r.2.files "/home/u/.config/soupnazi/licenses".toList,
        r.2.dirs "/home/u/.config/soupnazi".toList, r.2.dirs "/home/u".toList)) =
      some (none, some "abc.def.ghi\n".toList, true, true) ∧
    ∃ (err : Option GoError) (fs1 : FS),
      AddLicense acceptNonEmpty emptyEnv "/home/u".toList "linux".toList emptyFS
        "abc.def.ghi".toList = some (err, fs1) ∧
      (err = none →
        fs1.dirs (Dir (LicenseFile emptyEnv "/home/u".toList "linux".toList)) = true ∧
        fs1.files (LicenseFile emptyEnv "/home/u".toList "linux".toList) =
          some ("abc.def.ghi".toList ++ ['\n']) ∧
        ParseLicenses fs1 (LicenseFile emptyEnv "/home/u".toList "linux".toList) =
          some (["abc.def.ghi".toList], none)) :=
  ⟨by decide, by decide, by decide, by decide, by decide,
    AddLicense_creates_store acceptNonEmpty emptyEnv "/home/u".toList "linux".toList emptyFS
      "abc.def.ghi".toList (by decide) (by decide) (by decide) (by decide)⟩

/-- C6, as stated, fails. The store file has the content `a\n`, the files can grow by two
bytes and the token is `bcd`: the write stops after two bytes, `AddLicense` returns the error
of line 173, and the file then has the content `a\nbc`, which is neither the old content nor
the old content followed by `bcd\n`. -/
theorem AddLicense_appends_only_counterexample :
    (acceptNonEmpty "bcd".toList).isSome ∧
    ((singleFile "/tmp/lic".toList "a\n".toList).withSpace 2).files "/tmp/lic".toList =
      some "a\n".toList ∧
    (AddLicense acceptNonEmpty (singleEnv envvar "/tmp/lic".toList) [] "linux".toList
        ((singleFile "/tmp/lic".toList "a\n".toList).withSpace 2) "bcd".toList).map
      (fun r => (r.1, r.2.files "/tmp/lic".toList)) =
      some (some (.errorf
        "Error writing license to /tmp/lic: write /tmp/lic: no space left on device".toList),
        some "a\nbc".toList) ∧
    "a\nbc".toList ≠ "a\n".toList ∧
    "a\nbc".toList ≠ "a\n".toList ++ "bcd".toList ++ ['\n'] := by
  refine ⟨by decide, by decide, by decide, by decide, by decide⟩

/-- C6, as amended. For a valid token `t` and a store file with content `c`, after
`AddLicense` returns the content of the file is `c` followed by the first bytes of `t` and
`'\n'`, so `c` is a prefix of it; unless the error of line 173 (`Error writing license`) is
returned, the content is `c` or `c` followed by all of `t` and `'\n'`. -/
theorem AddLicense_appends_only {Token : Type} (RawToken : GoString → Option Token)
    (env : GoString → GoString) (home platform : GoString) (fs : FS) (t c : GoString)
    (hv : (RawToken t).isSome)
    (hfile : fs.files (LicenseFile env home platform) = some c) :
    ∃ (err : Option GoError) (fs1 : FS),
      AddLicense RawToken env home platform fs t = some (err, fs1) ∧
      (∃ k, fs1.files (LicenseFile env home platform) = some (c ++ (t ++ ['\n']).take k)) ∧
      ((∀ e : GoError, err ≠ some (.errorf ("Error writing license to ".toList ++
          LicenseFile env home platform ++ ": ".toList ++ e.Error))) →
        fs1.files (LicenseFile env home platform) = some c ∨
          fs1.files (LicenseFile env home platform) = some (c ++ t ++ ['\n'])) ∧
      ∃ c1, fs1.files (LicenseFile env home platform) = some c1 ∧ c <+: c1 := by
  rw [AddLicense_present RawToken env home platform fs t c hv hfile]
  obtain ⟨err, fs1, lics, _, hap, _, hcases⟩ := appendLicense_stage fs _ t c hfile
  refine ⟨err, fs1, hap, ?_⟩
  rcases hcases with ⟨_, _, hfs⟩ | ⟨_, _, hfs⟩ | ⟨_, _, hf⟩ | ⟨_, he, hf, _⟩
  · subst hfs
    exact ⟨⟨0, by simpa using hfile⟩, fun _ => Or.inl hfile, c, hfile, List.prefix_refl c⟩
  · subst hfs
    exact ⟨⟨0, by simpa using hfile⟩, fun _ => Or.inl hfile, c, hfile, List.prefix_refl c⟩
  · refine ⟨⟨(t ++ ['\n']).length, ?_⟩, fun _ => Or.inr hf, _, hf, ?_⟩
    · rw [List.take_length, hf, List.append_assoc]
    · rw [List.append_assoc]; exact List.prefix_append c _
  · refine ⟨⟨fs.space, hf⟩, ?_, _, hf, List.prefix_append c _⟩
    intro hno
    exact absurd he (hno _)

theorem AddLicense_appends_only_witness :
    (acceptNonEmpty "b".toList).isSome ∧
    (singleFile "/tmp/lic".toList "a\n".toList).files
        (LicenseFile (singleEnv envvar "/tmp/lic".toList) [] "linux".toList) =
      some "a\n".toList ∧
    (AddLicense acceptNonEmpty (singleEnv envvar "/tmp/lic".toList) [] "linux".toList
        (singleFile "/tmp/lic".toList "a\n".toList) "b".toList).map
      (fun r => (r.1, r.2.files "/tmp/lic".toList)) = some (none, some "a\nb\n".toList) ∧
    ∃ (err : Option GoError) (fs1 : FS),
      AddLicense acceptNonEmpty (singleEnv envvar "/tmp/lic".toList) [] "linux".toList
        (singleFile "/tmp/lic".toList "a\n".toList) "b".toList = some (err, fs1) ∧
      (∃ k, fs1.files (LicenseFile (singleEnv envvar "/tmp/lic".toList) [] "linux".toList) =
        some ("a\n".toList ++ ("b".toList ++ ['\n']).take k)) ∧
      ((∀ e : GoError, err ≠ some (.errorf ("Error writing license to ".toList ++
          LicenseFile (singleEnv envvar "/tmp/lic".toList) [] "linux".toList ++
          ": ".toList ++ e.Error))) →
        fs1.files (LicenseFile (singleEnv envvar "/tmp/lic".toList) [] "linux".toList) =
            some "a\n".toList ∨
          fs1.files (LicenseFile (singleEnv envvar "/tmp/lic".toList) [] "linux".toList) =
            some ("a\n".toList ++ "b".toList ++ ['\n'])) ∧
      ∃ c1, fs1.files (LicenseFile (singleEnv envvar "/tmp/lic".toList) [] "linux".toList) =
        some c1 ∧ "a\n".toList <+: c1 :=
  ⟨by decide, by decide, by decide,
    AddLicense_appends_only acceptNonEmpty (singleEnv envvar "/tmp/lic".toList) []
      "linux".toList (singleFile "/tmp/lic".toList "a\n".toList) "b".toList "a\n".toList
      (by decide) (by decide)⟩

/-- C7, at the failing input. The store file has the content `abc`, without a final newline,
and the token is `x`: `AddLicense` returns no error, and the file then has the content
`abcx\n`, in which the unterminated line has been extended by the token. -/
theorem AddLicense_corrupt_store_extended :
    (AddLicense acceptNonEmpty (singleEnv envvar "/tmp/lic".toList) [] "linux".toList
        (singleFile "/tmp/lic".toList "abc".toList) "x".toList).map
        (fun r => (r.1, r.2.files "/tmp/lic".toList)) =
      some (none, some "abcx\n".toList) := by
  decide

/-- C8. For a valid token `t` and a store file in which `t` is one of the entries that
`ParseLicenses` returns, `AddLicense` returns no error and writes nothing: the file system,
and so the content of the file, is the one before the call. -/
theorem AddLicense_duplicate_noop {Token : Type} (RawToken : GoString → Option Token)
    (env : GoString → GoString) (home platform : GoString) (fs : FS) (t c : GoString)
    (lics : List GoString) (err : Option GoError) (hv : (RawToken t).isSome)
    (hfile : fs.files (LicenseFile env home platform) = some c)
    (hparse : ParseLicenses fs (LicenseFile env home platform) = some (lics, err))
    (hmem : t ∈ lics) :
    AddLicense RawToken env home platform fs t = some (none, fs) := by
  rw [AddLicense_present RawToken env home platform fs t c hv hfile]
  obtain ⟨lics1, h1⟩ := ParseLicenses_file fs _ c hfile
  rw [h1] at hparse
  have h2 : lics1 = lics := by
    have := Option.some.inj hparse
    exact (Prod.mk.inj this).1
  subst h2
  exact appendLicense_dup fs _ t lics1 h1 hmem

theorem AddLicense_duplicate_noop_witness :
    (acceptNonEmpty "b".toList).isSome ∧
    (singleFile "/tmp/lic".toList "a\nb\n".toList).files
        (LicenseFile (singleEnv envvar "/tmp/lic".toList) [] "linux".toList) =
      some "a\nb\n".toList ∧
    ParseLicenses (singleFile "/tmp/lic".toList "a\nb\n".toList)
        (LicenseFile (singleEnv envvar "/tmp/lic".toList) [] "linux".toList) =
      some (["a".toList, "b".toList], none) ∧
    "b".toList ∈ ["a".toList, "b".toList] ∧
    AddLicense acceptNonEmpty (singleEnv envvar "/tmp/lic".toList) [] "linux".toList
        (singleFile "/tmp/lic".toList "a\nb\n".toList) "b".toList =
      some (none, singleFile "/tmp/lic".toList "a\nb\n".toList) :=
  ⟨by decide, by decide, by decide, by decide,
    AddLicense_duplicate_noop acceptNonEmpty (singleEnv envvar "/tmp/lic".toList) []
      "linux".toList (singleFile "/tmp/lic".toList "a\nb\n".toList) "b".toList "a\nb\n".toList
      ["a".toList, "b".toList] none (by decide) (by decide) (by decide) (by decide)⟩

/-- C9. If the environment variable `SOUPNAZI_CONFIG_FILE` has a non-empty value, `LicenseFile`
returns exactly that value, whatever the platform, the home directory and the rest of the
environment are: the value is neither joined with `soupnazi/licenses` nor cleaned. -/
theorem LicenseFile_override (env : GoString → GoString) (home platform : GoString)
    (h : env "SOUPNAZI_CONFIG_FILE".toList ≠ []) :
    LicenseFile env home platform = env "SOUPNAZI_CONFIG_FILE".toList := by
  unfold LicenseFile envvar
  rw [if_pos h]

theorem LicenseFile_override_witness :
    singleEnv envvar "/tmp/x/../y/".toList "SOUPNAZI_CONFIG_FILE".toList ≠ [] ∧
    LicenseFile (singleEnv envvar "/tmp/x/../y/".toList) "/home/u".toList "plan9".toList =
      singleEnv envvar "/tmp/x/../y/".toList "SOUPNAZI_CONFIG_FILE".toList ∧
    singleEnv envvar "/tmp/x/../y/".toList "SOUPNAZI_CONFIG_FILE".toList =
      "/tmp/x/../y/".toList :=
  ⟨by decide,
    LicenseFile_override (singleEnv envvar "/tmp/x/../y/".toList) "/home/u".toList
      "plan9".toList (by decide),
    by decide⟩

/-- C10. With `SOUPNAZI_CONFIG_FILE` unset or empty, `LicenseFile` is the platform table: on
`linux` it is `Join(XDG_CONFIG_HOME, "soupnazi", "licenses")` when `XDG_CONFIG_HOME` is not
empty and `Join(home, ".config", "soupnazi", "licenses")` otherwise; on `windows` the same with
`APPDATA`; on `darwin` it is `Join(home, "Library", "Preferences", "soupnazi", "licenses")`.
For `linux`, home `/home/u` and an empty environment it is `/home/u/.config/soupnazi/licenses`. -/
theorem LicenseFile_platform_table (env : GoString → GoString) (home platform : GoString)
    (h : env "SOUPNAZI_CONFIG_FILE".toList = []) :
    (platform = "linux".toList →
      LicenseFile env home platform =
        if env "XDG_CONFIG_HOME".toList ≠ [] then
          Join [env "XDG_CONFIG_HOME".toList, "soupnazi".toList, "licenses".toList]
        else Join [home, ".config".toList, "soupnazi".toList, "licenses".toList]) ∧
    (platform = "windows".toList →
      LicenseFile env home platform =
        if env "APPDATA".toList ≠ [] then
          Join [env "APPDATA".toList, "soupnazi".toList, "licenses".toList]
        else Join [home, ".config".toList, "soupnazi".toList, "licenses".toList]) ∧
    (platform = "darwin".toList →
      LicenseFile env home platform =
        Join [home, "Library".toList, "Preferences".toList, "soupnazi".toList,
          "licenses".toList]) ∧
    LicenseFile (fun _ => []) "/home/u".toList "linux".toList =
      "/home/u/.config/soupnazi/licenses".toList := by
  have h0 : ¬ env envvar ≠ [] := by simpa [envvar] using h
  refine ⟨?_, ?_, ?_, by decide⟩
  · intro hp
    subst hp
    unfold LicenseFile
    rw [if_neg h0, if_neg (by decide), if_pos rfl]
    by_cases hx : env "XDG_CONFIG_HOME".toList = []
    · simp only [hx, if_true, ne_eq, not_true_eq_false, if_false]
      exact Join_Join_home home _ [] _ _ (by decide)
    · simp only [hx, if_false, ne_eq, not_false_eq_true, if_true]
  · intro hp
    subst hp
    unfold LicenseFile
    rw [if_neg h0, if_pos rfl]
    by_cases hx : env "APPDATA".toList = []
    · simp only [hx, if_true, ne_eq, not_true_eq_false, if_false]
      exact Join_Join_home home _ [] _ _ (by decide)
    · simp only [hx, if_false, ne_eq, not_false_eq_true, if_true]
  · intro hp
    subst hp
    unfold LicenseFile
    rw [if_neg h0, if_neg (by decide), if_neg (by decide), if_pos rfl]
    exact Join_Join_home home _ ["Preferences".toList] _ _ (by decide)

theorem LicenseFile_platform_table_witness :
    singleEnv "XDG_CONFIG_HOME".toList "/etc/xdg/".toList "SOUPNAZI_CONFIG_FILE".toList = [] ∧
    LicenseFile (singleEnv "XDG_CONFIG_HOME".toList "/etc/xdg/".toList) "/home/u".toList
        "linux".toList =
      (if singleEnv "XDG_CONFIG_HOME".toList "/etc/xdg/".toList "XDG_CONFIG_HOME".toList ≠ []
        then Join [singleEnv "XDG_CONFIG_HOME".toList "/etc/xdg/".toList
          "XDG_CONFIG_HOME".toList, "soupnazi".toList, "licenses".toList]
        else Join ["/home/u".toList, ".config".toList, "soupnazi".toList, "licenses".toList]) ∧
    Join ["/etc/xdg/".toList, "soupnazi".toList, "licenses".toList] =
      "/etc/xdg/soupnazi/licenses".toList :=
  ⟨by decide,
    (LicenseFile_platform_table (singleEnv "XDG_CONFIG_HOME".toList "/etc/xdg/".toList)
      "/home/u".toList "linux".toList (by decide)).1 rfl,
    by decide⟩

/-- C11. With `SOUPNAZI_CONFIG_FILE` unset or empty and a platform other than `windows`,
`linux` and `darwin`, `LicenseFile` returns exactly the relative path `soupnazi/licenses`,
whatever the home directory, `XDG_CONFIG_HOME` and `APPDATA` are. -/
theorem LicenseFile_unknown_platform (env : GoString → GoString) (home platform : GoString)
    (h : env "SOUPNAZI_CONFIG_FILE".toList = []) (hw : platform ≠ "windows".toList)
    (hl : platform ≠ "linux".toList) (hd : platform ≠ "darwin".toList) :
    LicenseFile env home platform = "soupnazi/licenses".toList := by
  have h0 : ¬ env envvar ≠ [] := by simpa [envvar] using h
  unfold LicenseFile
  rw [if_neg h0, if_neg hw, if_neg hl, if_neg hd]
  decide

theorem LicenseFile_unknown_platform_witness :
    singleEnv "XDG_CONFIG_HOME".toList "/etc/xdg".toList "SOUPNAZI_CONFIG_FILE".toList = [] ∧
    "plan9".toList ≠ "windows".toList ∧ "plan9".toList ≠ "linux".toList ∧
    "plan9".toList ≠ "darwin".toList ∧
    LicenseFile (singleEnv "XDG_CONFIG_HOME".toList "/etc/xdg".toList) "/home/u".toList
      "plan9".toList = "soupnazi/licenses".toList :=
  ⟨by decide, by decide, by decide, by decide,
    LicenseFile_unknown_platform (singleEnv "XDG_CONFIG_HOME".toList "/etc/xdg".toList)
      "/home/u".toList "plan9".toList (by decide) (by decide) (by decide) (by decide)⟩

/-- C12, as stated, fails. The store file has the content `a\n` and may be read but not
written, and the token is `b`: `os.OpenFile` fails, `AddLicense` returns the error of line
163, and the file is unchanged. -/
theorem AddLicense_appends_last_counterexample :
    (acceptNonEmpty "b".toList).isSome ∧ "b".toList ≠ [] ∧ '\n' ∉ "b".toList ∧
    ((singleFile "/tmp/lic".toList "a\n".toList).withReadonly "/tmp/lic".toList).files
      "/tmp/lic".toList = some "a\n".toList ∧
    "a\n".toList.getLast? = some '\n' ∧
    ParseLicenses ((singleFile "/tmp/lic".toList "a\n".toList).withReadonly "/tmp/lic".toList)
      "/tmp/lic".toList = some (["a".toList], none) ∧
    "b".toList ∉ ["a".toList] ∧
    (AddLicense acceptNonEmpty (singleEnv envvar "/tmp/lic".toList) [] "linux".toList
        ((singleFile "/tmp/lic".toList "a\n".toList).withReadonly "/tmp/lic".toList)
        "b".toList).map
      (fun r => (r.1, r.2.files "/tmp/lic".toList)) =
      some (some (.errorf
        "Error trying to open license file /tmp/lic: open /tmp/lic: permission denied".toList),
        some "a\n".toList) := by
  refine ⟨by decide, by decide, by decide, by decide, by decide, by decide, by decide,
    by decide⟩

/-- C12, as amended. For a valid token `t` (not empty, without `'\n'`) and a store file whose
content is empty or ends with `'\n'` and whose parsed entries do not contain `t`,
`AddLicense` returns, and when it returns no error `ParseLicenses` on the file it leaves
returns the entries parsed before the call followed by `t`. -/
theorem AddLicense_appends_last {Token : Type} (RawToken : GoString → Option Token)
    (env : GoString → GoString) (home platform : GoString) (fs : FS) (t c : GoString)
    (lics : List GoString) (hv : (RawToken t).isSome) (hne : t ≠ []) (hnl : '\n' ∉ t)
    (hfile : fs.files (LicenseFile env home platform) = some c)
    (hterm : c = [] ∨ c.getLast? = some '\n')
    (hparse : ParseLicenses fs (LicenseFile env home platform) = some (lics, none))
    (hmem : t ∉ lics) :
    ∃ (err : Option GoError) (fs1 : FS),
      AddLicense RawToken env home platform fs t = some (err, fs1) ∧
      (err = none →
        ParseLicenses fs1 (LicenseFile env home platform) = some (lics ++ [t], none)) := by
  obtain ⟨⟨err, fs1⟩, h1⟩ :=
    Option.isSome_iff_exists.mp (AddLicense_isSome RawToken env home platform fs t)
  refine ⟨err, fs1, h1, ?_⟩
  intro he
  subst he
  obtain ⟨c0, hc0, hk⟩ := AddLicense_success RawToken env home platform fs fs1 t hv h1
  have hcc : c0 = c := by
    rcases hc0 with h | ⟨h, _⟩
    · rw [hfile] at h; exact (Option.some.inj h).symm
    · rw [hfile] at h; cases h
  subst hcc
  obtain ⟨ls, hls, hdec⟩ := terminated_lines c0 hterm
  have hdec0 : c0 = fileOfLines ls ++ [] := by simpa using hdec
  have hp := ParseLicenses_lines fs _ ls hls [] (by simp) (hdec0 ▸ hfile)
  rw [hp] at hparse
  have hl : ls.filter (fun l => l ≠ []) = lics := (Prod.mk.inj (Option.some.inj hparse)).1
  rcases hk ls [] hls (by simp) hdec0 with ⟨hm, _⟩ | ⟨_, hf1⟩
  · exact absurd (hl ▸ hm) hmem
  · have hls1 := snoc_lines_ok ls [] t hls (by simp) hnl
    have hdec1 : c0 ++ t ++ ['\n'] = fileOfLines (ls ++ [[] ++ t]) ++ [] := by
      rw [hdec]
      have := fileOfLines_snoc ls [] t
      simpa using this
    have h := ParseLicenses_lines fs1 _ _ hls1 [] (by simp) (hdec1 ▸ hf1)
    rw [filter_snoc_ne_nil ls _ (by simpa using hne), hl] at h
    simpa using h

theorem AddLicense_appends_last_witness :
    (acceptNonEmpty "c".toList).isSome ∧ "c".toList ≠ [] ∧ '\n' ∉ "c".toList ∧
    (singleFile "/tmp/lic".toList "a\n\nb\n".toList).files
        (LicenseFile (singleEnv envvar "/tmp/lic".toList) [] "linux".toList) =
      some "a\n\nb\n".toList ∧
    ("a\n\nb\n".toList = [] ∨ "a\n\nb\n".toList.getLast? = some '\n') ∧
    ParseLicenses (singleFile "/tmp/lic".toList "a\n\nb\n".toList)
        (LicenseFile (singleEnv envvar "/tmp/lic".toList) [] "linux".toList) =
      some (["a".toList, "b".toList], none) ∧
    "c".toList ∉ ["a".toList, "b".toList] ∧
    (AddLicense acceptNonEmpty (singleEnv envvar "/tmp/lic".toList) [] "linux".toList
        (singleFile "/tmp/lic".toList "a\n\nb\n".toList) "c".toList).map
      (fun r => (r.1, r.2.files "/tmp/lic".toList)) = some (none, some "a\n\nb\nc\n".toList) ∧
    ∃ (err : Option GoError) (fs1 : FS),
      AddLicense acceptNonEmpty (singleEnv envvar "/tmp/lic".toList) [] "linux".toList
        (singleFile "/tmp/lic".toList "a\n\nb\n".toList) "c".toList = some (err, fs1) ∧
      (err = none →
        ParseLicenses fs1 (LicenseFile (singleEnv envvar "/tmp/lic".toList) [] "linux".toList) =
          some (["a".toList, "b".toList] ++ ["c".toList], none)) :=
  ⟨by decide, by decide, by decide, by decide, by decide, by decide, by decide, by decide,
    AddLicense_appends_last acceptNonEmpty (singleEnv envvar "/tmp/lic".toList) []
      "linux".toList (singleFile "/tmp/lic".toList "a\n\nb\n".toList) "c".toList
      "a\n\nb\n".toList ["a".toList, "b".toList] (by decide) (by decide) (by decide)
      (by decide) (by decide) (by decide) (by decide)⟩

/-- C13. On a file of zero bytes `ParseLicenses` returns the empty list and no error. -/
theorem ParseLicenses_empty_file (fs : FS) (lfile : GoString)
    (hfile : fs.files lfile = some []) :
    ParseLicenses fs lfile = some ([], none) := by
  have h := ParseLicenses_lines fs lfile [] (by simp) [] (by simp) (by simpa [fileOfLines] using hfile)
  simpa using h

theorem ParseLicenses_empty_file_witness :
    (singleFile "f".toList []).files "f".toList = some [] ∧
    ParseLicenses (singleFile "f".toList []) "f".toList = some ([], none) :=
  ⟨by decide, ParseLicenses_empty_file (singleFile "f".toList []) "f".toList (by decide)⟩

/-- C14. When the file at `lfile` cannot be opened, as when nothing exists there,
`ParseLicenses` returns the empty list together with an error whose message contains `lfile`:
a missing store is a failure, not an empty store. -/
theorem ParseLicenses_open_error (fs : FS) (lfile : GoString) (err : GoError)
    (hopen : osOpen fs lfile = .error err) :
    ParseLicenses fs lfile =
        some ([], some (.errorf ("Error trying to open license file ".toList ++ lfile ++
          ": ".toList ++ err.Error))) ∧
      lfile <:+: "Error trying to open license file ".toList ++ lfile ++ ": ".toList ++
        err.Error := by
  refine ⟨by simp only [ParseLicenses, hopen], ?_⟩
  exact ⟨"Error trying to open license file ".toList, ": ".toList ++ err.Error, by simp⟩

theorem ParseLicenses_open_error_witness :
    osOpen emptyFS "/tmp/lic".toList =
      .error (.pathError "open".toList "/tmp/lic".toList .ENOENT) ∧
    ParseLicenses emptyFS "/tmp/lic".toList =
      some ([], some (.errorf
        "Error trying to open license file /tmp/lic: open /tmp/lic: no such file or directory".toList)) :=
  ⟨rfl, (ParseLicenses_open_error emptyFS "/tmp/lic".toList
    (.pathError "open".toList "/tmp/lic".toList .ENOENT) rfl).1⟩

/-- C15, as stated, fails. The store file has the content `a\n`, the files can grow by one
byte and the token is `b`: the write stops after the byte `b`, `AddLicense` returns an error,
and the file then has the content `a\nb`, which does not end with `'\n'`. -/
theorem AddLicense_keeps_terminated_counterexample :
    ((singleFile "/tmp/lic".toList "a\n".toList).withSpace 1).files "/tmp/lic".toList =
      some "a\n".toList ∧
    "a\n".toList.getLast? = some '\n' ∧
    (AddLicense acceptNonEmpty (singleEnv envvar "/tmp/lic".toList) [] "linux".toList
        ((singleFile "/tmp/lic".toList "a\n".toList).withSpace 1) "b".toList).map
      (fun r => (r.1, r.2.files "/tmp/lic".toList)) =
      some (some (.errorf
        "Error writing license to /tmp/lic: write /tmp/lic: no space left on device".toList),
        some "a\nb".toList) ∧
    "a\nb".toList ≠ [] ∧ "a\nb".toList.getLast? ≠ some '\n' := by
  refine ⟨by decide, by decide, by decide, by decide, by decide⟩

/-- C15, as amended. For every token and every store that is absent or whose content is empty
or ends with `'\n'`, `AddLicense` returns, and unless it returns the error of line 173
(`Error writing license`) the store file, if it exists then, has a content that is empty or
ends with `'\n'`. -/
theorem AddLicense_keeps_terminated {Token : Type} (RawToken : GoString → Option Token)
    (env : GoString → GoString) (home platform : GoString) (fs : FS) (lic : GoString)
    (hstore : fs.files (LicenseFile env home platform) = none ∨
      ∃ c, fs.files (LicenseFile env home platform) = some c ∧
        (c = [] ∨ c.getLast? = some '\n')) :
    ∃ (err : Option GoError) (fs1 : FS),
      AddLicense RawToken env home platform fs lic = some (err, fs1) ∧
      ((∀ e : GoError, err ≠ some (.errorf ("Error writing license to ".toList ++
          LicenseFile env home platform ++ ": ".toList ++ e.Error))) →
        fs1.files (LicenseFile env home platform) = none ∨
          ∃ c1, fs1.files (LicenseFile env home platform) = some c1 ∧
            (c1 = [] ∨ c1.getLast? = some '\n')) := by
  have stage : ∀ (fsA : FS) (c : GoString),
      fsA.files (LicenseFile env home platform) = some c → (c = [] ∨ c.getLast? = some '\n') →
      ∃ (err : Option GoError) (fs1 : FS),
        appendLicense fsA (LicenseFile env home platform) lic = some (err, fs1) ∧
        ((∀ e : GoError, err ≠ some (.errorf ("Error writing license to ".toList ++
            LicenseFile env home platform ++ ": ".toList ++ e.Error))) →
          fs1.files (LicenseFile env home platform) = none ∨
            ∃ c1, fs1.files (LicenseFile env home platform) = some c1 ∧
              (c1 = [] ∨ c1.getLast? = some '\n')) := by
    intro fsA c hA hct
    obtain ⟨err, fs1, lics, _, hap, _, hcases⟩ := appendLicense_stage fsA _ lic c hA
    refine ⟨err, fs1, hap, ?_⟩
    intro hno
    rcases hcases with ⟨_, _, hfs⟩ | ⟨_, _, hfs⟩ | ⟨_, _, hf⟩ | ⟨_, he, _, _⟩
    · subst hfs; exact Or.inr ⟨c, hA, hct⟩
    · subst hfs; exact Or.inr ⟨c, hA, hct⟩
    · exact Or.inr ⟨_, hf, Or.inr (getLast_snoc_newline c lic)⟩
    · exact absurd he (hno _)
  rcases hv : RawToken lic with _ | tok
  · refine ⟨some (.errorf ("License ".toList ++ lic ++ " is not a valid JWT".toList)), fs,
      by simp only [AddLicense, hv], ?_⟩
    intro _
    rcases hstore with h | ⟨c, h, hct⟩
    · exact Or.inl h
    · exact Or.inr ⟨c, h, hct⟩
  · have hsome : (RawToken lic).isSome := by rw [hv]; rfl
    rcases hf : fs.files (LicenseFile env home platform) with _ | c
    · obtain ⟨err, fs1, h1, hcases⟩ :=
        AddLicense_nofile_outcome RawToken env home platform fs lic hsome hf
      rcases hcases with ⟨_, hnone⟩ | ⟨fsC, hCf, _, hap⟩
      · exact ⟨err, fs1, h1, fun _ => Or.inl hnone⟩
      · obtain ⟨err', fs1', hap', hres⟩ := stage fsC [] hCf (Or.inl rfl)
        rw [hap] at hap'
        have hpair := Option.some.inj hap'
        have he : err = err' := (Prod.mk.inj hpair).1
        have hfs : fs1 = fs1' := (Prod.mk.inj hpair).2
        subst he
        subst hfs
        exact ⟨err, fs1, h1, hres⟩
    · have hct : c = [] ∨ c.getLast? = some '\n' := by
        rcases hstore with h | ⟨c', h, hct⟩
        · rw [hf] at h; cases h
        · rw [hf] at h
          exact Option.some.inj h ▸ hct
      rw [AddLicense_present RawToken env home platform fs lic c hsome hf]
      exact stage fs c hf hct

theorem AddLicense_keeps_terminated_witness :
    ((singleFile "/tmp/lic".toList "a\n".toList).files
        (LicenseFile (singleEnv envvar "/tmp/lic".toList) [] "linux".toList) = none ∨
      ∃ c, (singleFile "/tmp/lic".toList "a\n".toList).files
          (LicenseFile (singleEnv envvar "/tmp/lic".toList) [] "linux".toList) = some c ∧
        (c = [] ∨ c.getLast? = some '\n')) ∧
    (AddLicense acceptNonEmpty (singleEnv envvar "/tmp/lic".toList) [] "linux".toList
        (singleFile "/tmp/lic".toList "a\n".toList) "b".toList).map
      (fun r => (r.1, r.2.files "/tmp/lic".toList)) = some (none, some "a\nb\n".toList) ∧
    ∃ (err : Option GoError) (fs1 : FS),
      AddLicense acceptNonEmpty (singleEnv envvar "/tmp/lic".toList) [] "linux".toList
        (singleFile "/tmp/lic".toList "a\n".toList) "b".toList = some (err, fs1) ∧
      ((∀ e : GoError, err ≠ some (.errorf ("Error writing license to ".toList ++
          LicenseFile (singleEnv envvar "/tmp/lic".toList) [] "linux".toList ++
          ": ".toList ++ e.Error))) →
        fs1.files (LicenseFile (singleEnv envvar "/tmp/lic".toList) [] "linux".toList) = none ∨
          ∃ c1, fs1.files (LicenseFile (singleEnv envvar "/tmp/lic".toList) [] "linux".toList) =
            some c1 ∧ (c1 = [] ∨ c1.getLast? = some '\n')) :=
  ⟨Or.inr ⟨"a\n".toList, by decide, by decide⟩, by decide,
    AddLicense_keeps_terminated acceptNonEmpty (singleEnv envvar "/tmp/lic".toList) []
      "linux".toList (singleFile "/tmp/lic".toList "a\n".toList) "b".toList
      (Or.inr ⟨"a\n".toList, by decide, by decide⟩)⟩

/-- C16. With `SOUPNAZI_CONFIG_FILE` unset or empty, for every platform, home directory and
environment, the path that `LicenseFile` returns is `soupnazi/licenses` or ends with
`/soupnazi/licenses`: its last two elements are `soupnazi` and `licenses`. -/
theorem LicenseFile_last_elements (env : GoString → GoString) (home platform : GoString)
    (h : env "SOUPNAZI_CONFIG_FILE".toList = []) :
    LicenseFile env home platform = "soupnazi/licenses".toList ∨
      "/soupnazi/licenses".toList <:+ LicenseFile env home platform := by
  have h0 : ¬ env envvar ≠ [] := by simpa [envvar] using h
  unfold LicenseFile
  rw [if_neg h0]
  exact Join_soupnazi_licenses _

theorem LicenseFile_last_elements_witness :
    singleEnv "XDG_CONFIG_HOME".toList "/etc/./xdg/".toList "SOUPNAZI_CONFIG_FILE".toList = [] ∧
    (LicenseFile (singleEnv "XDG_CONFIG_HOME".toList "/etc/./xdg/".toList) "/home/u".toList
        "linux".toList = "soupnazi/licenses".toList ∨
      "/soupnazi/licenses".toList <:+
        LicenseFile (singleEnv "XDG_CONFIG_HOME".toList "/etc/./xdg/".toList) "/home/u".toList
          "linux".toList) ∧
    LicenseFile (singleEnv "XDG_CONFIG_HOME".toList "/etc/./xdg/".toList) "/home/u".toList
      "linux".toList = "/etc/xdg/soupnazi/licenses".toList :=
  ⟨by decide,
    LicenseFile_last_elements (singleEnv "XDG_CONFIG_HOME".toList "/etc/./xdg/".toList)
      "/home/u".toList "linux".toList (by decide),
    by decide⟩

/-- C17. For a file that can be opened and read, `ParseLicenses` returns no error, and it
returns the same list on the content with everything after the last `'\n'` removed: a last
line without a newline is dropped. The error of the return that follows the loop,
`License file corrupted`, is returned on no file system and for no path. -/
theorem ParseLicenses_drops_unterminated (fs : FS) (lfile c : GoString)
    (hfile : fs.files lfile = some c) :
    (∃ lics : List GoString,
      ParseLicenses fs lfile = some (lics, none) ∧
      ParseLicenses (fs.withFile lfile (c.rdropWhile (fun b => b ≠ '\n'))) lfile =
        some (lics, none)) ∧
    ∀ (fs2 : FS) (p : GoString) (l : List GoString) (line : GoString),
      ParseLicenses fs2 p ≠
        some (l, some (.errorf ("License file corrupted, ended with ".toList ++ line))) := by
  refine ⟨?_, ParseLicenses_ne_corrupted⟩
  obtain ⟨ls, t, hls, ht, rfl⟩ := exists_lines c.length c (Nat.le_refl _)
  refine ⟨_, ParseLicenses_lines fs lfile ls hls t ht hfile, ?_⟩
  rw [rdropWhile_lines ls t ht]
  exact ParseLicenses_lines _ lfile ls hls [] (by simp) (by simp)

theorem ParseLicenses_drops_unterminated_witness :
    (singleFile "f".toList "a\nb\nc".toList).files "f".toList = some "a\nb\nc".toList ∧
    "a\nb\nc".toList.rdropWhile (fun b => b ≠ '\n') = "a\nb\n".toList ∧
    ParseLicenses (singleFile "f".toList "a\nb\nc".toList) "f".toList =
      some (["a".toList, "b".toList], none) ∧
    ∃ lics : List GoString,
      ParseLicenses (singleFile "f".toList "a\nb\nc".toList) "f".toList = some (lics, none) ∧
      ParseLicenses ((singleFile "f".toList "a\nb\nc".toList).withFile "f".toList
        ("a\nb\nc".toList.rdropWhile (fun b => b ≠ '\n'))) "f".toList = some (lics, none) :=
  ⟨by decide, by decide, by decide,
    (ParseLicenses_drops_unterminated (singleFile "f".toList "a\nb\nc".toList) "f".toList
      "a\nb\nc".toList (by decide)).1⟩

/-- C18. For every platform, home directory (the empty one too) and environment,
`LicenseFile` returns a string that is not empty; so `AddLicense` never returns the error
`Unable to identify settings file`, whatever the syntax check, the file system and the token
are. -/
theorem LicenseFile_nonempty (env : GoString → GoString) (home platform : GoString) :
    LicenseFile env home platform ≠ [] ∧
    ∀ (Token : Type) (RawToken : GoString → Option Token) (fs fs1 : FS) (lic : GoString),
      AddLicense RawToken env home platform fs lic ≠
        some (some (.errorf "Unable to identify settings file".toList), fs1) := by
  refine ⟨LicenseFile_ne_nil env home platform, ?_⟩
  intro Token RawToken fs fs1 lic
  rcases hv : RawToken lic with _ | tok
  · simp only [AddLicense, hv]
    exact result_ne_unable _ _ _ (by show some 'L' ≠ some 'U'; decide)
  · simp only [AddLicense, hv]
    rw [if_neg (LicenseFile_ne_nil env home platform)]
    by_cases hnx : IsNotExist (osStat fs (LicenseFile env home platform)) = true
    · rw [if_pos hnx, if_neg (Dir_ne_nil _)]
      rcases osMkdirAll fs (Dir (LicenseFile env home platform)) with ⟨em, fsM⟩
      rcases em with _ | em
      · simp only []
        rcases osCreate fsM (LicenseFile env home platform) with ⟨ec, fsC⟩
        rcases ec with _ | ec
        · exact appendLicense_ne_unable _ _ _ _
        · exact result_ne_unable _ _ _ (by show some 'E' ≠ some 'U'; decide)
      · exact result_ne_unable _ _ _ (by show some 'C' ≠ some 'U'; decide)
    · rw [if_neg hnx]
      exact appendLicense_ne_unable _ _ _ _

end Soupnazi
